import Mathlib

/-!
Verification of the apicompat type-graph compatibility checker.

The Go source (compat.go and the jsontypes package) is shallowly embedded
as follows:

* Go pointers `*jsontypes.Type` become `Option Nat`: indices into an
  arena `Heap = List TypeNode` of type nodes; `none` is the nil pointer.
  The per-call visited map `checked map[*Type]bool`, keyed on pointer
  identity, becomes a list of such `Option Nat` keys.
* Go `map[TypeName]*Type` (the `Info.Types` field) becomes an association
  list with unique keys; `map[string]*Method` likewise (association-list
  iteration order stands in for Go's unspecified map iteration order).
* A Go runtime panic (nil-pointer dereference, or the explicit panic in
  `Info.Deref`) aborts the whole `Check` call, discarding any violations
  accumulated so far; this is modelled by the `Except CheckErr` result,
  with `CheckErr.panicErr`.  An arena index out of range has no Go
  counterpart (Go pointers are valid or nil) and is also mapped to
  `CheckErr.panicErr`.
* The recursion of `checkContext.check` is driven by fuel; the public
  `Check` entry point supplies `heap.length + 1` units, and it is proved
  below that this can never run out (`CheckErr.outOfFuel` is unreachable
  from `Check`).
* Go strings are modelled as Lean `String`/`List Char`; the tag
  micro-parser works on characters, which coincides with Go's byte-level
  indexing on ASCII input (every concrete input in this file is ASCII).
-/

namespace Apicompat

/-- Kind is the closed enumeration of type categories (jsontypes.Kind).
In Go each constant is a string; `kindStr` below gives that string. -/
inductive Kind where
  | unknown
  | bool
  | int
  | int8
  | int16
  | int32
  | int64
  | uint
  | uint8
  | uint16
  | uint32
  | uint64
  | uintptr
  | float32
  | float64
  | complex64
  | complex128
  | array
  | chan
  | func
  | interface
  | map
  | ptr
  | slice
  | string
  | struct
  | unsafePointer
deriving DecidableEq, Repr

/-- String value of a Kind constant, as declared in jsontypes. -/
def kindStr : Kind → String
  | .unknown => "unknown"
  | .bool => "bool"
  | .int => "int"
  | .int8 => "int8"
  | .int16 => "int16"
  | .int32 => "int32"
  | .int64 => "int64"
  | .uint => "uint"
  | .uint8 => "uint8"
  | .uint16 => "uint16"
  | .uint32 => "uint32"
  | .uint64 => "uint64"
  | .uintptr => "uintptr"
  | .float32 => "float32"
  | .float64 => "float64"
  | .complex64 => "complex64"
  | .complex128 => "complex128"
  | .array => "array"
  | .chan => "chan"
  | .func => "func"
  | .interface => "interface"
  | .map => "map"
  | .ptr => "ptr"
  | .slice => "slice"
  | .string => "string"
  | .struct => "struct"
  | .unsafePointer => "unsafepointer"

/-- jsontypes.Method: PtrReceiver, Name, and the method's function type
(a pointer into the arena, receiver already stripped). -/
structure Method where
  ptrReceiver : Bool
  name : String
  type : Option Nat
deriving DecidableEq, Repr

/-- jsontypes.Field: Name, Type (pointer into the arena, possibly nil),
Anonymous, Tag. -/
structure Field where
  name : String
  type : Option Nat
  anonymous : Bool
  tag : String
deriving DecidableEq, Repr

/-- jsontypes.Type: one node of the type graph.  Field names follow the
Go struct (Name, Kind, Methods, Fields, Elem, Key, In, Out, Variadic),
lower-cased; `inp`/`out` stand for Go's `In`/`Out`. -/
structure TypeNode where
  name : String
  kind : Kind
  methods : List (String × Method)
  fields : List Field
  elem : Option Nat
  key : Option Nat
  inp : List (Option Nat)
  out : List (Option Nat)
  variadic : Bool
deriving DecidableEq, Repr

/-- The arena holding every Type node of both graphs. -/
abbrev Heap := List TypeNode

/-- jsontypes.Info: the name-keyed map from TypeName to the (id of the)
full type definition. -/
structure Info where
  types : List (String × Nat)
deriving DecidableEq, Repr

/-- Dereference an arena id (model-level; Go pointers need no lookup). -/
def getNode (heap : Heap) (i : Nat) : Option TypeNode :=
  heap.get? i

/-- Lookup in the Info.Types map (`info.Types[name]`, nil when absent). -/
def lookupTypeL : List (String × Nat) → String → Option Nat
  | [], _ => none
  | (k, v) :: rest, n => if k = n then some v else lookupTypeL rest n

/-- Errors that abort a whole Check call: a Go panic, or fuel exhaustion
(an artifact of the fueled embedding, proved unreachable below). -/
inductive CheckErr where
  | panicErr (msg : String)
  | outOfFuel
deriving DecidableEq, Repr

/-- Message of the Go runtime panic raised by dereferencing nil. -/
def nilDerefMsg : String :=
  "runtime error: invalid memory address or nil pointer dereference"

/-- Info.Deref from jsontypes: resolve a named stub against the graph.
`t.Name` on a nil `t` panics (nil pointer dereference); a stub whose
name has no entry panics explicitly ("deref type with unknown name"). -/
def deref (heap : Heap) (info : Info) (t : Option Nat) : Except CheckErr (Option Nat) :=
  match t with
  | none => .error (.panicErr nilDerefMsg)
  | some tid =>
    match getNode heap tid with
    | none => .error (.panicErr "invalid pointer")
    | some node =>
      match lookupTypeL info.types node.name with
      | some dt => .ok (some dt)
      | none =>
        if node.kind = Kind.unknown then
          .error (.panicErr ("deref type with unknown name " ++ node.name))
        else
          .ok (some tid)

/-- Read a field (such as `.Kind`) through a possibly-nil pointer:
nil panics, exactly as in Go. -/
def getNodeE (heap : Heap) (t : Option Nat) : Except CheckErr TypeNode :=
  match t with
  | none => .error (.panicErr nilDerefMsg)
  | some tid =>
    match getNode heap tid with
    | none => .error (.panicErr "invalid pointer")
    | some node => .ok node

/-- Type.FieldByName: first field with the given name, nil if none
(no descent into anonymous fields). -/
def fieldByName : List Field → String → Option Field
  | [], _ => none
  | f :: fs, n => if f.name = n then some f else fieldByName fs n

/-- Lookup in a Methods map (`t.Methods[name]`). -/
def lookupMethod : List (String × Method) → String → Option Method
  | [], _ => none
  | (k, m) :: rest, n => if k = n then some m else lookupMethod rest n

/-- The mutable state of one checkContext: the visited map (pointer
keys) and the accumulated violations. -/
structure CheckState where
  checked : List (Option Nat)
  errors : List String
deriving DecidableEq, Repr

/-- checkContext.errorf: append one formatted violation. -/
def addError (s : CheckState) (msg : String) : CheckState :=
  { s with errors := s.errors ++ [msg] }

/-- `ctxt.checked[t] = true`: record a pointer in the visited map. -/
def insertChecked (x : Option Nat) (l : List (Option Nat)) : List (Option Nat) :=
  if x ∈ l then l else x :: l

/-- The read-only part of a checkContext. -/
structure Ctxt where
  heap : Heap
  info0 : Info
  info1 : Info
  ignore : Info → Option Nat → Bool

/-- Value of a hexadecimal digit (strconv's unhex). -/
def hexDigit : Char → Option Nat
  | c =>
    if '0' ≤ c ∧ c ≤ '9' then some (c.toNat - '0'.toNat)
    else if 'a' ≤ c ∧ c ≤ 'f' then some (c.toNat - 'a'.toNat + 10)
    else if 'A' ≤ c ∧ c ≤ 'F' then some (c.toNat - 'A'.toNat + 10)
    else none

/-- Value of an octal digit. -/
def octDigit : Char → Option Nat
  | c => if '0' ≤ c ∧ c ≤ '7' then some (c.toNat - '0'.toNat) else none

/-- utf8.ValidRune: not a surrogate and within the Unicode range. -/
def validRune (n : Nat) : Bool :=
  decide (n < 0xD800 ∨ (0xE000 ≤ n ∧ n ≤ 0x10FFFF))

/-- Contents of a double-quoted Go string literal, unescaped
(strconv.UnquoteChar iterated with quote = '"'): a bare quote or a
newline is a syntax error, backslash escapes follow Go's rules.
Characters stand in for Go's bytes; the two agree on ASCII. -/
def unquoteBody : List Char → Option (List Char)
  | [] => some []
  | '"' :: _ => none
  | '\n' :: _ => none
  | '\\' :: esc =>
    match esc with
    | [] => none
    | 'a' :: rest => (unquoteBody rest).map (fun r => Char.ofNat 0x07 :: r)
    | 'b' :: rest => (unquoteBody rest).map (fun r => Char.ofNat 0x08 :: r)
    | 'f' :: rest => (unquoteBody rest).map (fun r => Char.ofNat 0x0C :: r)
    | 'n' :: rest => (unquoteBody rest).map (fun r => '\n' :: r)
    | 'r' :: rest => (unquoteBody rest).map (fun r => '\r' :: r)
    | 't' :: rest => (unquoteBody rest).map (fun r => '\t' :: r)
    | 'v' :: rest => (unquoteBody rest).map (fun r => Char.ofNat 0x0B :: r)
    | '\\' :: rest => (unquoteBody rest).map (fun r => '\\' :: r)
    | '"' :: rest => (unquoteBody rest).map (fun r => '"' :: r)
    | 'x' :: h1 :: h2 :: rest =>
      match hexDigit h1, hexDigit h2 with
      | some d1, some d2 => (unquoteBody rest).map (fun r => Char.ofNat (16 * d1 + d2) :: r)
      | _, _ => none
    | 'u' :: a :: b :: c :: d :: rest =>
      match hexDigit a, hexDigit b, hexDigit c, hexDigit d with
      | some da, some db, some dc, some dd =>
        let v := ((da * 16 + db) * 16 + dc) * 16 + dd
        if validRune v then (unquoteBody rest).map (fun r => Char.ofNat v :: r) else none
      | _, _, _, _ => none
    | 'U' :: a :: b :: c :: d :: e :: f :: g :: h :: rest =>
      match hexDigit a, hexDigit b, hexDigit c, hexDigit d,
            hexDigit e, hexDigit f, hexDigit g, hexDigit h with
      | some da, some db, some dc, some dd, some de, some df, some dg, some dh =>
        let v := ((((((da * 16 + db) * 16 + dc) * 16 + dd) * 16 + de) * 16
          + df) * 16 + dg) * 16 + dh
        if validRune v then (unquoteBody rest).map (fun r => Char.ofNat v :: r) else none
      | _, _, _, _, _, _, _, _ => none
    | o1 :: o2 :: o3 :: rest =>
      match octDigit o1, octDigit o2, octDigit o3 with
      | some d1, some d2, some d3 =>
        let v := (d1 * 8 + d2) * 8 + d3
        if v ≤ 255 then (unquoteBody rest).map (fun r => Char.ofNat v :: r) else none
      | _, _, _ => none
    | _ => none
  | c :: rest => (unquoteBody rest).map (fun r => c :: r)

/-- strconv.Unquote restricted to double-quoted input (the only shape
allTags produces): strip the surrounding quotes and unescape; any other
shape is a syntax error (`none`). -/
def goUnquote (s : List Char) : Option String :=
  match s with
  | '"' :: rest =>
    if rest.getLast? = some '"' then (unquoteBody rest.dropLast).map List.asString
    else none
  | _ => none

/-- Go map assignment `all[name] = value` on an association list:
replace the value in place, or append a fresh key. -/
def insertTag : List (String × String) → String → String → List (String × String)
  | [], k, v => [(k, v)]
  | (k', v') :: rest, k, v =>
    if k' = k then (k', v) :: rest else (k', v') :: insertTag rest k v

/-- Scan a quoted tag value past the opening quote
(the `for i < len(tag) && tag[i] != '"'` loop of allTags): returns the
raw contents (escapes intact) and the remainder after the closing quote;
`none` when the closing quote is missing (`i >= len(tag)`). -/
def scanQuoted : List Char → Option (List Char × List Char)
  | [] => none
  | '"' :: rest => some ([], rest)
  | '\\' :: [] => none
  | '\\' :: d :: rest => (scanQuoted rest).map (fun pr => ('\\' :: d :: pr.1, pr.2))
  | c :: rest => (scanQuoted rest).map (fun pr => (c :: pr.1, pr.2))

/-- Remainder returned by scanQuoted is strictly shorter (the closing
quote is consumed). -/
theorem scanQuoted_length_lt :
    ∀ l cr, scanQuoted l = some cr → cr.2.length < l.length := by
  intro l
  induction l using scanQuoted.induct with
  | case1 => intro cr h; simp [scanQuoted] at h
  | case2 rest => intro cr h; simp [scanQuoted] at h; cases h; simp
  | case3 => intro cr h; simp [scanQuoted] at h
  | case4 d rest ih =>
    intro cr h
    simp only [scanQuoted, Option.map_eq_some'] at h
    obtain ⟨pr, hpr, hcr⟩ := h
    subst hcr
    have := ih pr hpr
    simp only [List.length_cons]
    omega
  | case5 c rest h1 h2 h3 ih =>
    intro cr h
    rw [scanQuoted.eq_def] at h
    simp only at h
    rw [Option.map_eq_some'] at h
    obtain ⟨pr, hpr, hcr⟩ := h
    subst hcr
    have := ih pr hpr
    simp only [List.length_cons]
    omega

/-- Length bound for dropWhile. -/
theorem length_dropWhile_le (p : Char → Bool) :
    ∀ l : List Char, (l.dropWhile p).length ≤ l.length := by
  intro l
  induction l with
  | nil => simp
  | cons c rest ih =>
    by_cases h : p c
    · simp only [List.dropWhile, h]
      exact Nat.le_trans ih (by simp)
    · simp only [List.dropWhile, h]
      simp

/-- Character class ending a tag key: `tag[i] != ' ' && tag[i] != ':'
&& tag[i] != '"'` scans up to the first of these. -/
def isKeyChar (c : Char) : Bool :=
  decide (c ≠ ' ' ∧ c ≠ ':' ∧ c ≠ '"')

/-- The loop of allTags: skip leading spaces, scan the key up to a
colon, require `:"`, scan the quoted value, unquote it (a failed unquote
yields "" since the error is discarded), store it, and continue; any
malformed remainder just stops the parse.  The loop is driven by fuel so
that it is structurally recursive (and so computes by kernel reduction);
each continuing iteration consumes at least one character, so the
`tag.length + 1` units supplied by `allTags` never run out, as
`parseTags_fuel_stable` below proves. -/
def parseTags : Nat → List (String × String) → List Char → List (String × String)
  | 0, acc, _ => acc
  | fuel + 1, acc, tag =>
    let tag1 := tag.dropWhile (fun c => c = ' ')
    if tag1 = [] then acc
    else
      match tag1.dropWhile isKeyChar with
      | c1 :: c2 :: tl =>
        if c1 = ':' ∧ c2 = '"' then
          match scanQuoted tl with
          | none => acc
          | some (content, remaining) =>
            parseTags fuel
              (insertTag acc (tag1.takeWhile isKeyChar).asString
                ((goUnquote ('"' :: (content ++ ['"']))).getD ""))
              remaining
        else acc
      | _ => acc

/-- The fuel supplied to parseTags is irrelevant as soon as it exceeds
the number of characters left: the loop always terminates on its own. -/
theorem parseTags_fuel_stable :
    ∀ fuel1 fuel2 acc (tag : List Char), tag.length < fuel1 → tag.length < fuel2 →
      parseTags fuel1 acc tag = parseTags fuel2 acc tag := by
  intro fuel1
  induction fuel1 using Nat.strong_induction_on with
  | _ fuel1 ih =>
    intro fuel2 acc tag h1 h2
    match fuel1, h1 with
    | f1 + 1, h1 =>
      match fuel2, h2 with
      | f2 + 1, h2 =>
        rw [parseTags, parseTags]
        by_cases he : tag.dropWhile (fun c => c = ' ') = []
        · rw [if_pos he, if_pos he]
        · rw [if_neg he, if_neg he]
          rcases hrest : (tag.dropWhile (fun c => c = ' ')).dropWhile isKeyChar with
            _ | ⟨c1, tl1⟩
          · rfl
          rcases tl1 with _ | ⟨c2, tl2⟩
          · rfl
          simp only []
          by_cases hcq : c1 = ':' ∧ c2 = '"'
          · rw [if_pos hcq, if_pos hcq]
            rcases hscan : scanQuoted tl2 with _ | ⟨content, remaining⟩
            · rfl
            · have hlt : remaining.length < tl2.length :=
                scanQuoted_length_lt tl2 (content, remaining) hscan
              have hrl : ((tag.dropWhile (fun c => c = ' ')).dropWhile isKeyChar).length =
                  tl2.length + 2 := by rw [hrest]; simp
              have h3 : ((tag.dropWhile (fun c => c = ' ')).dropWhile isKeyChar).length ≤
                  (tag.dropWhile (fun c => c = ' ')).length :=
                length_dropWhile_le isKeyChar (tag.dropWhile (fun c => c = ' '))
              have h4 : (tag.dropWhile (fun c => c = ' ')).length ≤ tag.length :=
                length_dropWhile_le (fun c => c = ' ') tag
              exact ih f1 (by omega) f2 _ remaining (by omega) (by omega)
          · rw [if_neg hcq, if_neg hcq]
    | 0, h1 => exact absurd h1 (by omega)

/-- allTags from compat.go: parse a struct tag into its key/value map. -/
def allTags (tag : String) : List (String × String) :=
  parseTags (tag.length + 1) [] tag.data

/-- Map lookup `tags1[name]` (found value, or absent). -/
def lookupTag : List (String × String) → String → Option String
  | [], _ => none
  | (k, v) :: rest, n => if k = n then some v else lookupTag rest n

/-- Lower-case hexadecimal digit character. -/
def hexChar (n : Nat) : Char :=
  if n < 10 then Char.ofNat ('0'.toNat + n) else Char.ofNat ('a'.toNat + n - 10)

/-- One character of strconv.Quote output.  Non-ASCII printable runes
are escaped here while Go prints them verbatim; every string quoted in
this development is ASCII, where the two definitions agree. -/
def quoteRune (c : Char) : List Char :=
  if c = '"' ∨ c = '\\' then ['\\', c]
  else if 0x20 ≤ c.toNat ∧ c.toNat < 0x7F then [c]
  else if c.toNat = 0x07 then ['\\', 'a']
  else if c.toNat = 0x08 then ['\\', 'b']
  else if c.toNat = 0x0C then ['\\', 'f']
  else if c = '\n' then ['\\', 'n']
  else if c = '\r' then ['\\', 'r']
  else if c = '\t' then ['\\', 't']
  else if c.toNat = 0x0B then ['\\', 'v']
  else if c.toNat < 0x80 then
    ['\\', 'x', hexChar (c.toNat / 16), hexChar (c.toNat % 16)]
  else if c.toNat < 0x10000 then
    ['\\', 'u', hexChar (c.toNat / 4096 % 16), hexChar (c.toNat / 256 % 16),
      hexChar (c.toNat / 16 % 16), hexChar (c.toNat % 16)]
  else
    ['\\', 'U', hexChar (c.toNat / 0x10000000 % 16), hexChar (c.toNat / 0x1000000 % 16),
      hexChar (c.toNat / 0x100000 % 16), hexChar (c.toNat / 0x10000 % 16),
      hexChar (c.toNat / 4096 % 16), hexChar (c.toNat / 256 % 16),
      hexChar (c.toNat / 16 % 16), hexChar (c.toNat % 16)]

/-- strconv.Quote: the %q verb used by checkTagCompat's message. -/
def goQuote (s : String) : String :=
  "\"" ++ (s.data.map quoteRune).flatten.asString ++ "\""

/-- checkTagCompat's loop over the parsed old-tag map, with the parsed
new-tag map fixed: `tags1[name]` yields the zero value "" for an absent
key, and any difference records one violation. -/
def checkTagCompatCore (tags0 tags1 : List (String × String)) (path : String)
    (s : CheckState) : CheckState :=
  tags0.foldl
    (fun st p =>
      let val1 := (lookupTag tags1 p.1).getD ""
      if val1 ≠ p.2 then
        addError st (path ++ ": incompatible tag " ++ p.1 ++ ":" ++ goQuote p.2
          ++ " vs " ++ p.1 ++ ":" ++ goQuote val1)
      else st)
    s

/-- checkContext.checkTagCompat from compat.go. -/
def checkTagCompat (tag0 tag1 path : String) (s : CheckState) : CheckState :=
  checkTagCompatCore (allTags tag0) (allTags tag1) path s

/-- Shape of the recursive checker threaded through the loop helpers. -/
abbrev Chk := Option Nat → Option Nat → String → CheckState → Except CheckErr CheckState

/-- Run a sequence of recursive sub-checks (the consecutive
`ctxt.check(...)` calls of a kind case), threading the state. -/
def runPairs (chk : Chk) : List (Option Nat × Option Nat × String) → CheckState →
    Except CheckErr CheckState
  | [], s => .ok s
  | (a, b, p) :: rest, s =>
    match chk a b p s with
    | .error e => .error e
    | .ok s' => runPairs chk rest s'

/-- Pair up parameter lists by position, starting at index `i`, with
their `%s(param %d)` paths. -/
def paramPairsFrom (path : String) : Nat → List (Option Nat) → List (Option Nat) →
    List (Option Nat × Option Nat × String)
  | _, [], _ => []
  | _, _ :: _, [] => []
  | i, x :: xs, y :: ys =>
    (x, y, path ++ "(param " ++ toString i ++ ")") :: paramPairsFrom path (i + 1) xs ys

/-- Pair up parameter lists by position with their `%s(param %d)`
paths (the `for i := range t0.In` loops). -/
def paramPairs (xs ys : List (Option Nat)) (path : String) :
    List (Option Nat × Option Nat × String) :=
  paramPairsFrom path 0 xs ys

/-- The Func case of checkContext.check: differing input counts are one
violation with no per-parameter comparison; equal counts compare inputs
pairwise and then flag a variadic change; outputs follow the same
count-then-pairwise rule (with no variadic check). -/
def checkFunc (chk : Chk) (n0 n1 : TypeNode) (path : String) (s : CheckState) :
    Except CheckErr CheckState :=
  let afterIn : Except CheckErr CheckState :=
    if n0.inp.length ≠ n1.inp.length then
      .ok (addError s (path ++ ": differing parameter count "
        ++ toString n0.inp.length ++ " vs " ++ toString n1.inp.length))
    else
      match runPairs chk (paramPairs n0.inp n1.inp path) s with
      | .error e => .error e
      | .ok s' =>
        .ok (if n0.variadic ≠ n1.variadic then
          addError s' (path ++ ": variadic status changed") else s')
  match afterIn with
  | .error e => .error e
  | .ok s' =>
    if n0.out.length ≠ n1.out.length then
      .ok (addError s' (path ++ ": differing out parameter count "
        ++ toString n0.out.length ++ " vs " ++ toString n1.out.length))
    else
      runPairs chk (paramPairs n0.out n1.out path) s'

/-- The Struct case of checkContext.check: iterate the old struct's
fields; a name with no counterpart in the new field list is one "field
is missing" violation; otherwise recurse on the field types and then
compare tags. -/
def checkFields (chk : Chk) (fields1 : List Field) (path : String) :
    List Field → CheckState → Except CheckErr CheckState
  | [], s => .ok s
  | f0 :: fs, s =>
    match fieldByName fields1 f0.name with
    | none =>
      checkFields chk fields1 path fs
        (addError s (path ++ "." ++ f0.name ++ ": field is missing"))
    | some f1 =>
      match chk f0.type f1.type (path ++ "." ++ f0.name) s with
      | .error e => .error e
      | .ok s' =>
        checkFields chk fields1 path fs
          (checkTagCompat f0.tag f1.tag (path ++ "." ++ f0.name) s')

/-- The method-set loop of checkContext.check (run for every kind):
a missing method is a violation; a value-receiver method that became
pointer-receiver-only is a violation; then the function types are
recursively compared. -/
def checkMethods (chk : Chk) (ms1 : List (String × Method)) (path : String) :
    List (String × Method) → CheckState → Except CheckErr CheckState
  | [], s => .ok s
  | (name, m0) :: ms, s =>
    match lookupMethod ms1 name with
    | none =>
      checkMethods chk ms1 path ms
        (addError s (path ++ ": method " ++ name ++ " is missing"))
    | some m1 =>
      let s' :=
        if !m0.ptrReceiver && m1.ptrReceiver then
          addError s (path ++ ": method " ++ name
            ++ " has changed from value to pointer receiver")
        else s
      match chk m0.type m1.type (path ++ "." ++ name) s' with
      | .error e => .error e
      | .ok s'' => checkMethods chk ms1 path ms s''

/-- The kind switch of checkContext.check: per-kind structural
recursion on element, key, parameter and field types. -/
def kindDispatch (chk : Chk) (n0 n1 : TypeNode) (path : String) (s2 : CheckState) :
    Kind → Except CheckErr CheckState
  | .array | .slice => runPairs chk [(n0.elem, n1.elem, path ++ "[]")] s2
  | .chan => runPairs chk [(n0.elem, n1.elem, "(<-" ++ path ++ ")")] s2
  | .ptr => runPairs chk [(n0.elem, n1.elem, "(*" ++ path ++ ")")] s2
  | .map => runPairs chk
      [(n0.key, n1.key, path ++ "[key]"), (n0.elem, n1.elem, path ++ "[]")] s2
  | .func => checkFunc chk n0 n1 path s2
  | .struct => checkFields chk n1.fields path n0.fields s2
  | _ => .ok s2

/-- One unfolding of checkContext.check, with the recursive calls
abstracted as `chk`: visited-set guard; unconditional marking of both
pointers; stub resolution; the ignore predicate; the (unreachable)
nil-type violation; kind comparison; per-kind structural recursion;
method-set comparison. -/
def checkBody (chk : Chk) (ctxt : Ctxt) (t0 t1 : Option Nat) (path : String)
    (s : CheckState) : Except CheckErr CheckState :=
  if t0 ∈ s.checked ∧ t1 ∈ s.checked then .ok s
  else
    let s1 : CheckState := { s with checked := insertChecked t1 (insertChecked t0 s.checked) }
    match deref ctxt.heap ctxt.info0 t0 with
    | .error e => .error e
    | .ok d0 =>
      match deref ctxt.heap ctxt.info1 t1 with
      | .error e => .error e
      | .ok d1 =>
        if ctxt.ignore ctxt.info0 d0 || ctxt.ignore ctxt.info1 d1 then .ok s1
        else
          let s2 := if d0 = none ∨ d1 = none then
            addError s1 (path ++ ": nil type found") else s1
          match getNodeE ctxt.heap d0 with
          | .error e => .error e
          | .ok n0 =>
            match getNodeE ctxt.heap d1 with
            | .error e => .error e
            | .ok n1 =>
              if n0.kind ≠ n1.kind then
                .ok (addError s2 (path ++ ": incompatible kinds "
                  ++ kindStr n0.kind ++ " vs " ++ kindStr n1.kind))
              else
                match kindDispatch chk n0 n1 path s2 n0.kind with
                | .error e => .error e
                | .ok s3 => checkMethods chk n1.methods path n0.methods s3

/-- checkContext.check, driven by fuel (each level of recursion spends
one unit; `Check` supplies enough that the fuel never runs out,
as proved below). -/
def check (ctxt : Ctxt) (fuel : Nat) (t0 t1 : Option Nat) (path : String)
    (s : CheckState) : Except CheckErr CheckState :=
  match fuel with
  | 0 => .error .outOfFuel
  | fuel' + 1 =>
    checkBody (fun a b p st => check ctxt fuel' a b p st) ctxt t0 t1 path s

/-- Check from compat.go.  The result list is the violations in the
order recorded; the empty list is Go's nil error, a non-empty list is
the CheckError value, and `.error` is a Go panic escaping the call. -/
def Check (heap : Heap) (info0 info1 : Info) (t0 t1 : Option Nat)
    (ignore : Info → Option Nat → Bool) : Except CheckErr (List String) :=
  (check ⟨heap, info0, info1, ignore⟩ (heap.length + 1) t0 t1 "" ⟨[], []⟩).map
    CheckState.errors

/-- Does any entry of the Types map point at arena id `i`?  (Whether the
node is one of the `info.Types` values PruneMethods iterates over.) -/
def typesHasId (types : List (String × Nat)) (i : Nat) : Bool :=
  types.any (fun p => p.2 == i)

/-- Filter one node's Methods map, keeping the methods the predicate
accepts (`delete(t.Methods, name)` for the rest). -/
def pruneNode (f : TypeNode → Method → Bool) (node : TypeNode) : TypeNode :=
  { node with methods := node.methods.filter (fun nm => f node nm.2) }

/-- Walk the arena, pruning exactly the nodes stored in the Types map. -/
def pruneFrom (info : Info) (f : TypeNode → Method → Bool) : Nat → Heap → Heap
  | _, [] => []
  | i, node :: rest =>
    (if typesHasId info.types i then pruneNode f node else node)
      :: pruneFrom info f (i + 1) rest

/-- PruneMethods from compat.go: for every type in the graph's Types
map, delete every method the predicate rejects. -/
def PruneMethods (heap : Heap) (info : Info) (f : TypeNode → Method → Bool) : Heap :=
  pruneFrom info f 0 heap

/-- C9: Deref returns the graph's entry for the type's name when one
exists; otherwise a type whose kind is not Unknown is returned
unchanged; otherwise (an unresolvable stub) it raises an unrecoverable
panic — an error of the traversal, not a recorded compatibility
violation — and never silently returns a value. -/
theorem deref_resolution_rules :
    ∀ (heap : Heap) (info : Info) (tid : Nat) (node : TypeNode),
      getNode heap tid = some node →
      ((∀ dt, lookupTypeL info.types node.name = some dt →
          deref heap info (some tid) = .ok (some dt))
        ∧ (lookupTypeL info.types node.name = none → node.kind ≠ Kind.unknown →
          deref heap info (some tid) = .ok (some tid))
        ∧ (lookupTypeL info.types node.name = none → node.kind = Kind.unknown →
          deref heap info (some tid) =
            .error (.panicErr ("deref type with unknown name " ++ node.name)))) := by
  intro heap info tid node hnode
  refine ⟨?_, ?_, ?_⟩
  · intro dt hdt
    simp [deref, hnode, hdt]
  · intro hnone hkind
    simp [deref, hnode, hnone, hkind]
  · intro hnone hkind
    simp [deref, hnode, hnone, hkind]

/-- Witness for deref_resolution_rules: a named type resolves to its
graph entry; an unnamed non-stub is returned unchanged; an unresolvable
stub panics. -/
theorem deref_resolution_rules_witness :
    getNode [⟨"S", .unknown, [], [], none, none, [], [], false⟩,
      ⟨"", .int, [], [], none, none, [], [], false⟩] 0 =
        some ⟨"S", .unknown, [], [], none, none, [], [], false⟩
    ∧ deref [⟨"S", .unknown, [], [], none, none, [], [], false⟩,
        ⟨"", .int, [], [], none, none, [], [], false⟩] ⟨[("S", 1)]⟩ (some 0) = .ok (some 1)
    ∧ deref [⟨"S", .unknown, [], [], none, none, [], [], false⟩,
        ⟨"", .int, [], [], none, none, [], [], false⟩] ⟨[]⟩ (some 1) = .ok (some 1)
    ∧ deref [⟨"S", .unknown, [], [], none, none, [], [], false⟩,
        ⟨"", .int, [], [], none, none, [], [], false⟩] ⟨[]⟩ (some 0) =
          .error (.panicErr ("deref type with unknown name " ++ "S")) :=
  ⟨rfl,
    (deref_resolution_rules
      [⟨"S", .unknown, [], [], none, none, [], [], false⟩,
       ⟨"", .int, [], [], none, none, [], [], false⟩] ⟨[("S", 1)]⟩ 0
      ⟨"S", .unknown, [], [], none, none, [], [], false⟩ rfl).1 1 rfl,
    (deref_resolution_rules
      [⟨"S", .unknown, [], [], none, none, [], [], false⟩,
       ⟨"", .int, [], [], none, none, [], [], false⟩] ⟨[]⟩ 1
      ⟨"", .int, [], [], none, none, [], [], false⟩ rfl).2.1 rfl (by simp),
    (deref_resolution_rules
      [⟨"S", .unknown, [], [], none, none, [], [], false⟩,
       ⟨"", .int, [], [], none, none, [], [], false⟩] ⟨[]⟩ 0
      ⟨"S", .unknown, [], [], none, none, [], [], false⟩ rfl).2.2 rfl rfl⟩

/-- C1 counterexample: a key present in the old tag and absent from the
new tag IS a violation (the new map's zero value "" differs from the old
value), contradicting the claim that keys absent from the new tag are
never violations. -/
theorem checkTagCompat_old_only_key_counterexample :
    checkTagCompat "k:\"a\"" "" "p" ⟨[], []⟩ =
      ⟨[], ["p: incompatible tag k:\"a\" vs k:\"\""]⟩ := rfl

/-- C1 as amended: for each key of the old tag's map, the new tag's
value is looked up with the empty string as default for an absent key,
and exactly one violation naming the key and both values is recorded
precisely when the old value differs from that (possibly defaulted) new
value; in particular a key present in both with equal values yields
nothing, a key in both with differing values yields exactly one
violation, a key absent from the new tag yields one violation unless its
old value is empty, and an empty old map (hence keys only in the new
tag) yields nothing. -/
theorem checkTagCompat_defaulted_lookup_rules :
    (∀ (path name val0 val1 : String) (tags1 : List (String × String)) (s : CheckState),
      lookupTag tags1 name = some val1 →
      checkTagCompatCore [(name, val0)] tags1 path s =
        if val1 = val0 then s
        else addError s (path ++ ": incompatible tag " ++ name ++ ":" ++ goQuote val0
          ++ " vs " ++ name ++ ":" ++ goQuote val1))
    ∧ (∀ (path name val0 : String) (tags1 : List (String × String)) (s : CheckState),
      lookupTag tags1 name = none →
      checkTagCompatCore [(name, val0)] tags1 path s =
        if val0 = "" then s
        else addError s (path ++ ": incompatible tag " ++ name ++ ":" ++ goQuote val0
          ++ " vs " ++ name ++ ":" ++ goQuote ""))
    ∧ (∀ (path : String) (tags1 : List (String × String)) (s : CheckState),
      checkTagCompatCore [] tags1 path s = s) := by
  refine ⟨?_, ?_, ?_⟩
  · intro path name val0 val1 tags1 s h
    by_cases hv : val1 = val0
    · simp [checkTagCompatCore, h, hv]
    · simp [checkTagCompatCore, h, hv, if_neg]
  · intro path name val0 tags1 s h
    by_cases hv : val0 = ""
    · simp [checkTagCompatCore, h, hv]
    · have hne : ("" : String) ≠ val0 := fun hc => hv hc.symm
      simp [checkTagCompatCore, h, hv, hne]
  · intro path tags1 s
    simp [checkTagCompatCore]

/-- Witness for checkTagCompat_defaulted_lookup_rules on concrete maps:
differing values in both maps record the one violation. -/
theorem checkTagCompat_defaulted_lookup_rules_witness :
    lookupTag [("k", "b")] "k" = some "b"
    ∧ checkTagCompatCore [("k", "a")] [("k", "b")] "p" ⟨[], []⟩ =
      (if ("b" : String) = "a" then (⟨[], []⟩ : CheckState)
       else addError ⟨[], []⟩ ("p: incompatible tag k:" ++ goQuote "a"
         ++ " vs k:" ++ goQuote "b")) :=
  ⟨rfl, checkTagCompat_defaulted_lookup_rules.1 "p" "k" "a" "b" [("k", "b")] ⟨[], []⟩ rfl⟩

/-- C2: comparing a struct whose field B has a nil type against a
same-shaped struct makes check pass nil to Deref, which panics
dereferencing `t.Name`; the whole Check call aborts with the panic and
even the "field is missing" violation already recorded for field A is
discarded — no "nil type found" violation is ever recorded (that branch
sits after Deref, which never returns nil). -/
theorem check_nil_type_panics :
    Check
      [⟨"T", .struct, [], [⟨"A", none, false, ""⟩, ⟨"B", none, false, ""⟩],
        none, none, [], [], false⟩,
       ⟨"T", .struct, [], [⟨"B", none, false, ""⟩], none, none, [], [], false⟩]
      ⟨[("T", 0)]⟩ ⟨[("T", 1)]⟩ (some 0) (some 1) (fun _ _ => false)
      = .error (.panicErr nilDerefMsg) := rfl

/-- Reading the arena after pruneFrom: node `i` is method-filtered
exactly when some Types entry points at position `j + i`. -/
theorem pruneFrom_get (info : Info) (f : TypeNode → Method → Bool) :
    ∀ (heap : Heap) (j i : Nat),
      getNode (pruneFrom info f j heap) i =
        (getNode heap i).map
          (fun node => if typesHasId info.types (j + i) then pruneNode f node else node) := by
  intro heap
  induction heap with
  | nil => intro j i; simp [pruneFrom, getNode]
  | cons node rest ih =>
    intro j i
    cases i with
    | zero => simp [pruneFrom, getNode]
    | succ i =>
      simp only [pruneFrom, getNode, List.get?]
      have := ih (j + 1) i
      simp only [getNode] at this
      rw [this, show j + 1 + i = j + (i + 1) from by omega]

/-- C10: PruneMethods touches only the Methods maps of the nodes stored
directly in the graph's Types map: a node no Types entry points at (one
reachable only through Elem/Key/In/Out/field edges) is unchanged, and
every other component of every node (name, kind, fields, elem, key,
inputs, outputs, variadic flag) is preserved, the targeted nodes keeping
exactly the methods the predicate accepts. -/
theorem pruneMethods_frame :
    ∀ (heap : Heap) (info : Info) (f : TypeNode → Method → Bool) (i : Nat) (node : TypeNode),
      getNode heap i = some node →
      ((typesHasId info.types i = false → getNode (PruneMethods heap info f) i = some node)
        ∧ ∃ node', getNode (PruneMethods heap info f) i = some node'
            ∧ node'.name = node.name ∧ node'.kind = node.kind
            ∧ node'.fields = node.fields ∧ node'.elem = node.elem
            ∧ node'.key = node.key ∧ node'.inp = node.inp
            ∧ node'.out = node.out ∧ node'.variadic = node.variadic
            ∧ (typesHasId info.types i = true →
                node'.methods = node.methods.filter (fun nm => f node nm.2))) := by
  intro heap info f i node hnode
  have hget := pruneFrom_get info f heap 0 i
  rw [hnode] at hget
  simp only [Nat.zero_add, Option.map_some'] at hget
  constructor
  · intro hfalse
    rw [PruneMethods, hget, hfalse]
    simp
  · by_cases h : typesHasId info.types i
    · refine ⟨pruneNode f node, ?_, ?_, ?_, ?_, ?_, ?_, ?_, ?_, ?_, ?_⟩
      · rw [PruneMethods, hget, h]; simp
      all_goals simp [pruneNode]
    · refine ⟨node, ?_, rfl, rfl, rfl, rfl, rfl, rfl, rfl, rfl, ?_⟩
      · rw [PruneMethods, hget]
        simp [h]
      · intro htrue
        exact absurd htrue (by simpa using h)

/-- Witness for pruneMethods_frame: with a two-node arena whose Types
map names only node 0, pruning with a reject-all predicate empties node
0's methods and leaves the anonymous node 1 untouched. -/
theorem pruneMethods_frame_witness :
    getNode [⟨"T", .int, [("M", ⟨false, "M", none⟩)], [], none, none, [], [], false⟩,
      ⟨"", .interface, [("N", ⟨false, "N", none⟩)], [], none, none, [], [], false⟩] 1 =
        some ⟨"", .interface, [("N", ⟨false, "N", none⟩)], [], none, none, [], [], false⟩
    ∧ typesHasId [("T", 0)] 1 = false
    ∧ getNode (PruneMethods
        [⟨"T", .int, [("M", ⟨false, "M", none⟩)], [], none, none, [], [], false⟩,
         ⟨"", .interface, [("N", ⟨false, "N", none⟩)], [], none, none, [], [], false⟩]
        ⟨[("T", 0)]⟩ (fun _ _ => false)) 1 =
      some ⟨"", .interface, [("N", ⟨false, "N", none⟩)], [], none, none, [], [], false⟩ :=
  ⟨rfl, rfl,
    (pruneMethods_frame
      [⟨"T", .int, [("M", ⟨false, "M", none⟩)], [], none, none, [], [], false⟩,
       ⟨"", .interface, [("N", ⟨false, "N", none⟩)], [], none, none, [], [], false⟩]
      ⟨[("T", 0)]⟩ (fun _ _ => false) 1
      ⟨"", .interface, [("N", ⟨false, "N", none⟩)], [], none, none, [], [], false⟩ rfl).1 rfl⟩

/-- Appending fields whose names are all different from `n` does not
change a FieldByName lookup. -/
theorem fieldByName_append_of_ne :
    ∀ (fields1 extra : List Field) (n : String), (∀ g ∈ extra, n ≠ g.name) →
      fieldByName (fields1 ++ extra) n = fieldByName fields1 n := by
  intro fields1
  induction fields1 with
  | nil =>
    intro extra n hne
    induction extra with
    | nil => simp [fieldByName]
    | cons g gs ih =>
      simp only [List.nil_append, fieldByName]
      rw [if_neg (fun hgn => hne g (by simp) hgn.symm)]
      exact ih (fun g' hg' => hne g' (by simp [hg']))
  | cons f fs ih =>
    intro extra n hne
    simp only [List.cons_append, fieldByName]
    by_cases hf : f.name = n
    · rw [if_pos hf, if_pos hf]
    · rw [if_neg hf, if_neg hf]
      exact ih extra n hne

/-- C5: in the struct case, (1) every old field with no same-named new
field contributes exactly one "field is missing" violation at its own
path (and nothing else: no recursion happens, whatever the checker
does); (2) an old field present in the new struct is recursively
compared and then tag-compared, with no missing-field violation; and
(3) extra new fields whose names clash with no old field have no effect
on the comparison at all. -/
theorem checkFields_struct_field_rules :
    (∀ (chk : Chk) (fields1 : List Field) (path : String) (fields0 : List Field)
        (s : CheckState),
      (∀ f ∈ fields0, fieldByName fields1 f.name = none) →
      checkFields chk fields1 path fields0 s =
        .ok { s with errors := s.errors
          ++ fields0.map (fun f => path ++ "." ++ f.name ++ ": field is missing") })
    ∧ (∀ (chk : Chk) (fields1 : List Field) (path : String) (f0 f1 : Field) (s : CheckState),
      fieldByName fields1 f0.name = some f1 →
      checkFields chk fields1 path [f0] s =
        match chk f0.type f1.type (path ++ "." ++ f0.name) s with
        | .error e => .error e
        | .ok s' => .ok (checkTagCompat f0.tag f1.tag (path ++ "." ++ f0.name) s'))
    ∧ (∀ (chk : Chk) (fields1 extra : List Field) (path : String) (fields0 : List Field)
        (s : CheckState),
      (∀ f ∈ fields0, ∀ g ∈ extra, f.name ≠ g.name) →
      checkFields chk (fields1 ++ extra) path fields0 s =
        checkFields chk fields1 path fields0 s) := by
  refine ⟨?_, ?_, ?_⟩
  · intro chk fields1 path fields0
    induction fields0 with
    | nil => intro s _; cases s; simp [checkFields]
    | cons f fs ih =>
      intro s hmiss
      rw [checkFields, hmiss f (by simp)]
      rw [ih (addError s (path ++ "." ++ f.name ++ ": field is missing"))
        (fun g hg => hmiss g (by simp [hg]))]
      simp [addError]
  · intro chk fields1 path f0 f1 s hfound
    rw [checkFields, hfound]
    simp only []
    cases hres : chk f0.type f1.type (path ++ "." ++ f0.name) s with
    | error e => rfl
    | ok s' => rfl
  · intro chk fields1 extra path fields0
    induction fields0 with
    | nil => intro s _; rfl
    | cons f fs ih =>
      intro s hdisj
      rw [checkFields, checkFields,
        fieldByName_append_of_ne fields1 extra f.name (hdisj f (by simp))]
      cases hfb : fieldByName fields1 f.name with
      | none => exact ih _ (fun g hg => hdisj g (by simp [hg]))
      | some f1 =>
        simp only []
        cases hres : chk f.type f1.type (path ++ "." ++ f.name) s with
        | error e => rfl
        | ok s' => exact ih _ (fun g hg => hdisj g (by simp [hg]))

/-- Witness for checkFields_struct_field_rules at concrete inputs:
a removed field yields its one missing-field violation, a kept field is
compared, and a new-only field changes nothing. -/
theorem checkFields_struct_field_rules_witness :
    (∀ f ∈ [(⟨"A", none, false, ""⟩ : Field)], fieldByName [] f.name = none)
    ∧ checkFields (fun _ _ _ st => .ok st) [] "" [⟨"A", none, false, ""⟩] ⟨[], []⟩ =
        .ok ⟨[], [".A: field is missing"]⟩
    ∧ checkFields (fun _ _ _ st => .ok st) [⟨"A", none, false, ""⟩] ""
        [⟨"A", none, false, ""⟩] ⟨[], []⟩ = .ok ⟨[], []⟩
    ∧ checkFields (fun _ _ _ st => .ok st)
        ([⟨"A", none, false, ""⟩] ++ [⟨"New", none, false, ""⟩]) "" [⟨"A", none, false, ""⟩]
        ⟨[], []⟩ =
      checkFields (fun _ _ _ st => .ok st) [⟨"A", none, false, ""⟩] "" [⟨"A", none, false, ""⟩]
        ⟨[], []⟩ :=
  ⟨by intro f hf; simp at hf; simp [hf, fieldByName],
    by
      rw [checkFields_struct_field_rules.1 (fun _ _ _ st => .ok st) [] ""
        [⟨"A", none, false, ""⟩] ⟨[], []⟩ (by intro f hf; simp at hf; simp [hf, fieldByName])]
      rfl,
    by
      rw [checkFields_struct_field_rules.2.1 (fun _ _ _ st => .ok st) [⟨"A", none, false, ""⟩]
        "" ⟨"A", none, false, ""⟩ ⟨"A", none, false, ""⟩ ⟨[], []⟩ rfl]
      rfl,
    checkFields_struct_field_rules.2.2 (fun _ _ _ st => .ok st) [⟨"A", none, false, ""⟩]
      [⟨"New", none, false, ""⟩] "" [⟨"A", none, false, ""⟩] ⟨[], []⟩
      (by intro f hf g hg; simp at hf hg; simp [hf, hg])⟩

/-- C6: for a method present in both method sets, a value receiver that
becomes a pointer receiver records exactly the one receiver-narrowing
violation (before the recursive comparison of the method's function
type, whatever that adds); the reverse relaxation records nothing. -/
theorem checkMethods_receiver_narrowing :
    (∀ (chk : Chk) (name : String) (m0 m1 : Method) (path : String) (s : CheckState),
      m0.ptrReceiver = false → m1.ptrReceiver = true →
      checkMethods chk [(name, m1)] path [(name, m0)] s =
        chk m0.type m1.type (path ++ "." ++ name)
          (addError s (path ++ ": method " ++ name
            ++ " has changed from value to pointer receiver")))
    ∧ (∀ (chk : Chk) (name : String) (m0 m1 : Method) (path : String) (s : CheckState),
      m0.ptrReceiver = true → m1.ptrReceiver = false →
      checkMethods chk [(name, m1)] path [(name, m0)] s =
        chk m0.type m1.type (path ++ "." ++ name) s) := by
  constructor
  · intro chk name m0 m1 path s h0 h1
    rw [checkMethods]
    simp only [lookupMethod, eq_self_iff_true, if_true, h0, h1, Bool.not_false,
      Bool.and_self, if_true]
    cases hres : chk m0.type m1.type (path ++ "." ++ name)
        (addError s (path ++ ": method " ++ name
          ++ " has changed from value to pointer receiver")) with
    | error e => rfl
    | ok s'' => rfl
  · intro chk name m0 m1 path s h0 h1
    rw [checkMethods]
    simp only [lookupMethod, eq_self_iff_true, if_true, h0, h1, Bool.not_true,
      Bool.false_and, Bool.false_eq_true, if_false]
    cases hres : chk m0.type m1.type (path ++ "." ++ name) s with
    | error e => rfl
    | ok s'' => rfl

/-- Witness for checkMethods_receiver_narrowing: the narrowing records
the violation, the relaxation records nothing. -/
theorem checkMethods_receiver_narrowing_witness :
    (⟨false, "M", none⟩ : Method).ptrReceiver = false
    ∧ (⟨true, "M", none⟩ : Method).ptrReceiver = true
    ∧ checkMethods (fun _ _ _ st => .ok st) [("M", ⟨true, "M", none⟩)] ""
        [("M", ⟨false, "M", none⟩)] ⟨[], []⟩ =
      .ok ⟨[], [": method M has changed from value to pointer receiver"]⟩
    ∧ checkMethods (fun _ _ _ st => .ok st) [("M", ⟨false, "M", none⟩)] ""
        [("M", ⟨true, "M", none⟩)] ⟨[], []⟩ = .ok ⟨[], []⟩ :=
  ⟨rfl, rfl,
    by
      rw [checkMethods_receiver_narrowing.1 (fun _ _ _ st => .ok st) "M"
        ⟨false, "M", none⟩ ⟨true, "M", none⟩ "" ⟨[], []⟩ rfl rfl]
      rfl,
    by
      rw [checkMethods_receiver_narrowing.2 (fun _ _ _ st => .ok st) "M"
        ⟨true, "M", none⟩ ⟨false, "M", none⟩ "" ⟨[], []⟩ rfl rfl]⟩

/-- C7: comparing two Func types with differing input counts records
exactly the one "differing parameter count" violation — no input is
compared (whatever the checker would do) and the variadic flags are
never consulted — after which only the outputs are processed; with equal
input counts the inputs are compared pairwise by position and a variadic
change is recorded as its own separate violation. -/
theorem checkFunc_param_count_rules :
    (∀ (chk : Chk) (n0 n1 : TypeNode) (path : String) (s : CheckState),
      n0.inp.length ≠ n1.inp.length → n0.out.length = n1.out.length →
      checkFunc chk n0 n1 path s =
        runPairs chk (paramPairs n0.out n1.out path)
          (addError s (path ++ ": differing parameter count "
            ++ toString n0.inp.length ++ " vs " ++ toString n1.inp.length)))
    ∧ (∀ (chk : Chk) (n0 n1 : TypeNode) (path : String) (s : CheckState),
      n0.inp.length = n1.inp.length → n0.out = [] → n1.out = [] →
      checkFunc chk n0 n1 path s =
        match runPairs chk (paramPairs n0.inp n1.inp path) s with
        | .error e => .error e
        | .ok s' => .ok (if n0.variadic ≠ n1.variadic then
            addError s' (path ++ ": variadic status changed") else s')) := by
  constructor
  · intro chk n0 n1 path s hin hout
    rw [checkFunc]
    simp only [ne_eq, hin, not_false_eq_true, if_true, hout, not_true_eq_false, if_false]
  · intro chk n0 n1 path s hin hout0 hout1
    rw [checkFunc]
    simp only [ne_eq, hin, not_true_eq_false, if_false, hout0, hout1]
    cases hres : runPairs chk (paramPairs n0.inp n1.inp path) s with
    | error e => rfl
    | ok s' => simp [paramPairs, runPairs]

/-- Witness for checkFunc_param_count_rules: two inputs against one
yield the single count violation even with a variadic mismatch, and
equal counts surface the variadic change separately. -/
theorem checkFunc_param_count_rules_witness :
    ([none, none] : List (Option Nat)).length ≠ ([none] : List (Option Nat)).length
    ∧ checkFunc (fun _ _ _ st => .ok st)
        ⟨"F", .func, [], [], none, none, [none, none], [], true⟩
        ⟨"F", .func, [], [], none, none, [none], [], false⟩ "" ⟨[], []⟩ =
      .ok ⟨[], [": differing parameter count 2 vs 1"]⟩
    ∧ checkFunc (fun _ _ _ st => .ok st)
        ⟨"F", .func, [], [], none, none, [none], [], true⟩
        ⟨"F", .func, [], [], none, none, [none], [], false⟩ "" ⟨[], []⟩ =
      .ok ⟨[], [": variadic status changed"]⟩ :=
  ⟨by simp,
    by
      rw [checkFunc_param_count_rules.1 (fun _ _ _ st => .ok st)
        ⟨"F", .func, [], [], none, none, [none, none], [], true⟩
        ⟨"F", .func, [], [], none, none, [none], [], false⟩ "" ⟨[], []⟩ (by simp) rfl]
      rfl,
    by
      rw [checkFunc_param_count_rules.2 (fun _ _ _ st => .ok st)
        ⟨"F", .func, [], [], none, none, [none], [], true⟩
        ⟨"F", .func, [], [], none, none, [none], [], false⟩ "" ⟨[], []⟩ rfl rfl rfl]
      rfl⟩

/-- C8: when the two resolved types have different kinds, the pair
yields the one "incompatible kinds" violation and nothing else: whatever
fields, methods, element/key/parameter types either node carries, no
structural recursion, method comparison or tag comparison runs. -/
theorem check_kind_mismatch_single_violation :
    ∀ (n0 n1 : TypeNode), n0.kind ≠ n1.kind →
      Check [n0, n1] ⟨[(n0.name, 0)]⟩ ⟨[(n1.name, 1)]⟩ (some 0) (some 1) (fun _ _ => false)
        = .ok [": incompatible kinds " ++ kindStr n0.kind ++ " vs " ++ kindStr n1.kind] := by
  intro n0 n1 hk
  rw [Check]
  simp only [List.length_cons, List.length_nil]
  rw [check, checkBody]
  simp [deref, getNode, lookupTypeL, getNodeE, insertChecked, addError, hk]
  rfl

/-- Witness for check_kind_mismatch_single_violation: a struct with a
field and a method against a chan. -/
theorem check_kind_mismatch_single_violation_witness :
    (⟨"A", .struct, [("M", ⟨false, "M", none⟩)], [⟨"F", none, false, ""⟩],
        none, none, [], [], false⟩ : TypeNode).kind ≠
      (⟨"B", .chan, [], [], some 0, none, [], [], false⟩ : TypeNode).kind
    ∧ Check
        [⟨"A", .struct, [("M", ⟨false, "M", none⟩)], [⟨"F", none, false, ""⟩],
          none, none, [], [], false⟩,
         ⟨"B", .chan, [], [], some 0, none, [], [], false⟩]
        ⟨[("A", 0)]⟩ ⟨[("B", 1)]⟩ (some 0) (some 1) (fun _ _ => false) =
      .ok [": incompatible kinds " ++ kindStr .struct ++ " vs " ++ kindStr .chan] :=
  ⟨by simp,
    check_kind_mismatch_single_violation
      ⟨"A", .struct, [("M", ⟨false, "M", none⟩)], [⟨"F", none, false, ""⟩],
        none, none, [], [], false⟩
      ⟨"B", .chan, [], [], some 0, none, [], [], false⟩ (by simp)⟩

/-- The arena positions not yet in the visited map: the measure that
shrinks every time check marks a pair and recurses. -/
def unvisited (heap : Heap) (s : CheckState) : Finset ℕ :=
  (Finset.range heap.length).filter (fun i => some i ∉ s.checked)

/-- Cardinality of the unvisited set. -/
def uCard (heap : Heap) (s : CheckState) : ℕ :=
  (unvisited heap s).card

/-- Membership after marking a pointer visited. -/
theorem mem_insertChecked (x y : Option Nat) (l : List (Option Nat)) :
    x ∈ insertChecked y l ↔ x = y ∨ x ∈ l := by
  rw [insertChecked]
  split
  · constructor
    · intro hx; exact Or.inr hx
    · rintro (rfl | hx)
      · assumption
      · exact hx
  · simp [List.mem_cons]

/-- Marking only grows the visited map. -/
theorem subset_insertChecked (y : Option Nat) (l : List (Option Nat)) :
    l ⊆ insertChecked y l := by
  intro x hx
  rw [mem_insertChecked]
  exact Or.inr hx

/-- A visited map that only grew can only shrink the unvisited set. -/
theorem uCard_le_of_subset (heap : Heap) (s s' : CheckState)
    (h : s.checked ⊆ s'.checked) : uCard heap s' ≤ uCard heap s := by
  apply Finset.card_le_card
  intro x hx
  rw [unvisited, Finset.mem_filter] at hx ⊢
  exact ⟨hx.1, fun hmem => hx.2 (h hmem)⟩

/-- Marking a not-yet-visited valid pair strictly shrinks the unvisited
set: the heart of the termination argument. -/
theorem uCard_insert2_lt (heap : Heap) (s : CheckState) (i0 i1 : Nat)
    (h0 : i0 < heap.length) (h1 : i1 < heap.length)
    (hg : ¬(some i0 ∈ s.checked ∧ some i1 ∈ s.checked)) :
    uCard heap
      { s with checked := insertChecked (some i1) (insertChecked (some i0) s.checked) }
      < uCard heap s := by
  apply Finset.card_lt_card
  rw [Finset.ssubset_iff_of_subset]
  · rcases Decidable.not_and_iff_or_not.mp hg with hm | hm
    · refine ⟨i0, ?_, ?_⟩
      · rw [unvisited, Finset.mem_filter]
        exact ⟨Finset.mem_range.mpr h0, hm⟩
      · rw [unvisited, Finset.mem_filter]
        rintro ⟨-, hnot⟩
        apply hnot
        simp [mem_insertChecked]
    · refine ⟨i1, ?_, ?_⟩
      · rw [unvisited, Finset.mem_filter]
        exact ⟨Finset.mem_range.mpr h1, hm⟩
      · rw [unvisited, Finset.mem_filter]
        rintro ⟨-, hnot⟩
        apply hnot
        simp [mem_insertChecked]
  · intro x hx
    rw [unvisited, Finset.mem_filter] at hx ⊢
    refine ⟨hx.1, fun hmem => hx.2 ?_⟩
    exact subset_insertChecked _ _ (subset_insertChecked _ _ hmem)

/-- addError leaves the visited map alone. -/
theorem addError_checked (s : CheckState) (m : String) :
    (addError s m).checked = s.checked := rfl

/-- The tag-compatibility loop only appends errors: the visited map is
untouched. -/
theorem checkTagCompatCore_checked (tags1 : List (String × String)) (path : String) :
    ∀ (tags0 : List (String × String)) (s : CheckState),
      (checkTagCompatCore tags0 tags1 path s).checked = s.checked := by
  intro tags0
  induction tags0 with
  | nil => intro s; rfl
  | cons p rest ih =>
    intro s
    have h1 : checkTagCompatCore (p :: rest) tags1 path s =
        checkTagCompatCore rest tags1 path
          (if (lookupTag tags1 p.1).getD "" ≠ p.2 then
            addError s (path ++ ": incompatible tag " ++ p.1 ++ ":" ++ goQuote p.2
              ++ " vs " ++ p.1 ++ ":" ++ goQuote ((lookupTag tags1 p.1).getD ""))
          else s) := rfl
    rw [h1, ih]
    split <;> rfl

/-- checkTagCompat leaves the visited map alone. -/
theorem checkTagCompat_checked (tag0 tag1 path : String) (s : CheckState) :
    (checkTagCompat tag0 tag1 path s).checked = s.checked :=
  checkTagCompatCore_checked (allTags tag1) path (allTags tag0) s

/-- Deref can fail only with a panic, never with fuel exhaustion. -/
theorem deref_no_fuel (heap : Heap) (info : Info) (t : Option Nat) :
    deref heap info t ≠ .error .outOfFuel := by
  rcases t with - | tid
  · simp [deref]
  · rcases hn : getNode heap tid with - | node
    · simp [deref, hn]
    · rcases hl : lookupTypeL info.types node.name with - | dt
      · by_cases hu : node.kind = Kind.unknown
        · simp [deref, hn, hl, hu]
        · simp [deref, hn, hl, hu]
      · simp [deref, hn, hl]

/-- A successful Deref means its argument was a valid non-nil pointer. -/
theorem deref_ok_arg (heap : Heap) (info : Info) (t : Option Nat) (d : Option Nat)
    (h : deref heap info t = .ok d) : ∃ i, t = some i ∧ i < heap.length := by
  rcases t with - | tid
  · simp [deref] at h
  · refine ⟨tid, rfl, ?_⟩
    rcases hn : getNode heap tid with - | node
    · rw [deref.eq_def] at h
      simp [hn] at h
    · obtain ⟨hlt, -⟩ := List.get?_eq_some.mp (show heap.get? tid = some node from hn)
      exact hlt

/-- A successful Deref never returns nil: it either found a graph entry
or returned its (non-nil) argument.  This is why the "nil type found"
branch of check is dead code. -/
theorem deref_ok_some (heap : Heap) (info : Info) (t : Option Nat) (d : Option Nat)
    (h : deref heap info t = .ok d) : ∃ j, d = some j := by
  rcases t with - | tid
  · simp [deref] at h
  · rcases hn : getNode heap tid with - | node
    · simp [deref, hn] at h
    · rcases hl : lookupTypeL info.types node.name with - | dt
      · by_cases hu : node.kind = Kind.unknown
        · simp [deref, hn, hl, hu] at h
        · simp [deref, hn, hl, hu] at h
          exact ⟨tid, h.symm⟩
      · simp [deref, hn, hl] at h
        exact ⟨dt, h.symm⟩

/-- getNodeE can fail only with a panic, never with fuel exhaustion. -/
theorem getNodeE_no_fuel (heap : Heap) (t : Option Nat) :
    getNodeE heap t ≠ .error .outOfFuel := by
  rcases t with - | tid
  · simp [getNodeE]
  · rcases hn : getNode heap tid with - | node <;> simp [getNodeE, hn]

/-- Unfolding of runPairs on a pair. -/
theorem runPairs_cons (chk : Chk) (a b : Option Nat) (p : String)
    (rest : List (Option Nat × Option Nat × String)) (s : CheckState) :
    runPairs chk ((a, b, p) :: rest) s =
      match chk a b p s with
      | .error e => .error e
      | .ok s1 => runPairs chk rest s1 := rfl

/-- Unfolding of checkFields on a field. -/
theorem checkFields_cons (chk : Chk) (fields1 : List Field) (path : String)
    (f0 : Field) (fs : List Field) (s : CheckState) :
    checkFields chk fields1 path (f0 :: fs) s =
      match fieldByName fields1 f0.name with
      | none =>
        checkFields chk fields1 path fs
          (addError s (path ++ "." ++ f0.name ++ ": field is missing"))
      | some f1 =>
        match chk f0.type f1.type (path ++ "." ++ f0.name) s with
        | .error e => .error e
        | .ok s' =>
          checkFields chk fields1 path fs
            (checkTagCompat f0.tag f1.tag (path ++ "." ++ f0.name) s') := rfl

/-- Unfolding of checkMethods on a method. -/
theorem checkMethods_cons (chk : Chk) (ms1 : List (String × Method)) (path : String)
    (name : String) (m0 : Method) (ms : List (String × Method)) (s : CheckState) :
    checkMethods chk ms1 path ((name, m0) :: ms) s =
      match lookupMethod ms1 name with
      | none =>
        checkMethods chk ms1 path ms
          (addError s (path ++ ": method " ++ name ++ " is missing"))
      | some m1 =>
        match chk m0.type m1.type (path ++ "." ++ name)
          (if !m0.ptrReceiver && m1.ptrReceiver then
            addError s (path ++ ": method " ++ name
              ++ " has changed from value to pointer receiver")
          else s) with
        | .error e => .error e
        | .ok s'' => checkMethods chk ms1 path ms s'' := rfl

/-- A checker through which the visited map only grows. -/
def ChkMono (chk : Chk) : Prop :=
  ∀ a b p s s', chk a b p s = .ok s' → s.checked ⊆ s'.checked

/-- The visited map only grows across a sequence of sub-checks. -/
theorem runPairs_mono (chk : Chk) (hm : ChkMono chk) :
    ∀ pairs s s', runPairs chk pairs s = .ok s' → s.checked ⊆ s'.checked := by
  intro pairs
  induction pairs with
  | nil =>
    intro s s' h
    rw [runPairs] at h
    simp only [Except.ok.injEq] at h
    subst h
    exact fun x hx => hx
  | cons pr rest ih =>
    obtain ⟨a, b, p⟩ := pr
    intro s s' h
    rw [runPairs_cons] at h
    cases hc : chk a b p s with
    | error e => rw [hc] at h; simp at h
    | ok s1 =>
      rw [hc] at h
      exact (hm a b p s s1 hc).trans (ih s1 s' h)

/-- The visited map only grows across the struct-field loop. -/
theorem checkFields_mono (chk : Chk) (hm : ChkMono chk) (fields1 : List Field)
    (path : String) :
    ∀ fs0 s s', checkFields chk fields1 path fs0 s = .ok s' → s.checked ⊆ s'.checked := by
  intro fs0
  induction fs0 with
  | nil =>
    intro s s' h
    rw [checkFields] at h
    simp only [Except.ok.injEq] at h
    subst h
    exact fun x hx => hx
  | cons f fs ih =>
    intro s s' h
    rw [checkFields_cons] at h
    cases hfb : fieldByName fields1 f.name with
    | none =>
      rw [hfb] at h
      simp only [] at h
      exact ih (addError s (path ++ "." ++ f.name ++ ": field is missing")) s' h
    | some f1 =>
      rw [hfb] at h
      simp only [] at h
      cases hc : chk f.type f1.type (path ++ "." ++ f.name) s with
      | error e => rw [hc] at h; simp at h
      | ok s1 =>
        rw [hc] at h
        refine (hm _ _ _ _ _ hc).trans ?_
        have h2 := ih _ s' h
        rwa [checkTagCompat_checked] at h2

/-- The visited map only grows across the method loop. -/
theorem checkMethods_mono (chk : Chk) (hm : ChkMono chk) (ms1 : List (String × Method))
    (path : String) :
    ∀ ms0 s s', checkMethods chk ms1 path ms0 s = .ok s' → s.checked ⊆ s'.checked := by
  intro ms0
  induction ms0 with
  | nil =>
    intro s s' h
    rw [checkMethods] at h
    simp only [Except.ok.injEq] at h
    subst h
    exact fun x hx => hx
  | cons nm ms ih =>
    obtain ⟨name, m0⟩ := nm
    intro s s' h
    rw [checkMethods_cons] at h
    cases hlm : lookupMethod ms1 name with
    | none =>
      rw [hlm] at h
      simp only [] at h
      exact ih (addError s (path ++ ": method " ++ name ++ " is missing")) s' h
    | some m1 =>
      rw [hlm] at h
      simp only [] at h
      cases hc : chk m0.type m1.type (path ++ "." ++ name)
          (if !m0.ptrReceiver && m1.ptrReceiver then
            addError s (path ++ ": method " ++ name
              ++ " has changed from value to pointer receiver")
          else s) with
      | error e => rw [hc] at h; simp at h
      | ok s1 =>
        rw [hc] at h
        have hpre : s.checked ⊆ s1.checked := by
          have := hm _ _ _ _ _ hc
          split at this
          · exact this
          · exact this
        exact hpre.trans (ih s1 s' h)

/-- The visited map only grows across the Func case. -/
theorem checkFunc_mono (chk : Chk) (hm : ChkMono chk) (n0 n1 : TypeNode) (path : String) :
    ∀ s s', checkFunc chk n0 n1 path s = .ok s' → s.checked ⊆ s'.checked := by
  intro s s' h
  unfold checkFunc at h
  by_cases hin : n0.inp.length ≠ n1.inp.length
  · rw [if_pos hin] at h
    simp only [] at h
    by_cases hout : n0.out.length ≠ n1.out.length
    · rw [if_pos hout] at h
      simp only [Except.ok.injEq] at h
      subst h
      exact fun x hx => hx
    · rw [if_neg hout] at h
      have := runPairs_mono chk hm (paramPairs n0.out n1.out path) _ s' h
      exact this
  · rw [if_neg hin] at h
    cases hr : runPairs chk (paramPairs n0.inp n1.inp path) s with
    | error e => rw [hr] at h; simp at h
    | ok s1 =>
      rw [hr] at h
      simp only [] at h
      have h1 : s.checked ⊆ s1.checked := runPairs_mono chk hm _ s s1 hr
      by_cases hout : n0.out.length ≠ n1.out.length
      · rw [if_pos hout] at h
        simp only [Except.ok.injEq] at h
        subst h
        refine h1.trans ?_
        split <;> exact fun x hx => hx
      · rw [if_neg hout] at h
        refine h1.trans ?_
        have h2 := runPairs_mono chk hm (paramPairs n0.out n1.out path) _ s' h
        revert h2
        split <;> exact fun h2 => h2

/-- The visited map only grows across the kind dispatch of checkBody. -/
theorem kindDispatch_mono (chk : Chk) (hm : ChkMono chk) (n0 n1 : TypeNode)
    (path : String) (k : Kind) :
    ∀ s2 s3, kindDispatch chk n0 n1 path s2 k = .ok s3 → s2.checked ⊆ s3.checked := by
  intro s2 s3 h
  cases k <;> simp only [kindDispatch] at h <;>
    first
      | exact runPairs_mono chk hm _ s2 s3 h
      | exact checkFunc_mono chk hm n0 n1 path s2 s3 h
      | exact checkFields_mono chk hm n1.fields path n0.fields s2 s3 h
      | (simp only [Except.ok.injEq] at h; subst h; exact fun x hx => hx)

/-- The visited map only grows across one unfolding of check. -/
theorem checkBody_mono (chk : Chk) (hm : ChkMono chk) (ctxt : Ctxt)
    (t0 t1 : Option Nat) (path : String) :
    ∀ s s', checkBody chk ctxt t0 t1 path s = .ok s' → s.checked ⊆ s'.checked := by
  intro s s' h
  unfold checkBody at h
  by_cases hg : t0 ∈ s.checked ∧ t1 ∈ s.checked
  · rw [if_pos hg] at h
    simp only [Except.ok.injEq] at h
    subst h
    exact fun x hx => hx
  · rw [if_neg hg] at h
    have hsub1 : s.checked ⊆ insertChecked t1 (insertChecked t0 s.checked) :=
      fun x hx => subset_insertChecked _ _ (subset_insertChecked _ _ hx)
    cases hd0 : deref ctxt.heap ctxt.info0 t0 with
    | error e => rw [hd0] at h; simp at h
    | ok d0 =>
      rw [hd0] at h
      simp only [] at h
      cases hd1 : deref ctxt.heap ctxt.info1 t1 with
      | error e => rw [hd1] at h; simp at h
      | ok d1 =>
        rw [hd1] at h
        simp only [] at h
        by_cases hig : (ctxt.ignore ctxt.info0 d0 || ctxt.ignore ctxt.info1 d1) = true
        · rw [if_pos hig] at h
          simp only [Except.ok.injEq] at h
          subst h
          exact hsub1
        · rw [if_neg hig] at h
          cases hn0 : getNodeE ctxt.heap d0 with
          | error e => rw [hn0] at h; simp at h
          | ok n0 =>
            rw [hn0] at h
            simp only [] at h
            cases hn1 : getNodeE ctxt.heap d1 with
            | error e => rw [hn1] at h; simp at h
            | ok n1 =>
              rw [hn1] at h
              simp only [] at h
              have hs2 : (if d0 = none ∨ d1 = none then
                  addError { s with
                    checked := insertChecked t1 (insertChecked t0 s.checked) }
                    (path ++ ": nil type found")
                else { s with
                  checked := insertChecked t1 (insertChecked t0 s.checked) }).checked =
                  insertChecked t1 (insertChecked t0 s.checked) := by
                split <;> rfl
              by_cases hk : n0.kind ≠ n1.kind
              · rw [if_pos hk] at h
                simp only [Except.ok.injEq] at h
                subst h
                intro x hx
                rw [addError_checked, hs2]
                exact hsub1 hx
              · rw [if_neg hk] at h
                split at h
                · simp at h
                · rename_i s3 hsb
                  have hm2 := kindDispatch_mono chk hm n0 n1 path n0.kind _ s3 hsb
                  rw [hs2] at hm2
                  have hm3 := checkMethods_mono chk hm n1.methods path n0.methods s3 s' h
                  exact (hsub1.trans hm2).trans hm3

/-- The visited map only grows across check, whatever the fuel. -/
theorem check_mono (ctxt : Ctxt) : ∀ fuel, ChkMono (check ctxt fuel) := by
  intro fuel
  induction fuel with
  | zero => intro a b p s s' h; rw [check] at h; simp at h
  | succ fuel' ih =>
    intro a b p s s' h
    rw [check] at h
    exact checkBody_mono _ ih ctxt a b p s s' h

/-- A checker that cannot exhaust its fuel from any state with fewer
unvisited nodes than `bound`. -/
def ChkSafe (chk : Chk) (heap : Heap) (bound : Nat) : Prop :=
  ∀ a b p s, uCard heap s < bound → chk a b p s ≠ .error .outOfFuel

/-- Visited maps with equal contents give equal measures. -/
theorem uCard_congr (heap : Heap) (s s' : CheckState)
    (h : s.checked = s'.checked) : uCard heap s = uCard heap s' := by
  rw [uCard, uCard, unvisited, unvisited, h]

/-- A sequence of sub-checks cannot exhaust the fuel. -/
theorem runPairs_safe (chk : Chk) (heap : Heap) (bound : Nat) (hm : ChkMono chk)
    (hs : ChkSafe chk heap bound) :
    ∀ pairs s, uCard heap s < bound → runPairs chk pairs s ≠ .error .outOfFuel := by
  intro pairs
  induction pairs with
  | nil => intro s hc; rw [runPairs]; simp
  | cons pr rest ih =>
    obtain ⟨a, b, p⟩ := pr
    intro s hc
    rw [runPairs_cons]
    cases hcall : chk a b p s with
    | error e =>
      intro hcontr
      apply hs a b p s hc
      rw [hcall]
      simp only [] at hcontr
      rw [hcontr]
    | ok s1 =>
      have hle := uCard_le_of_subset heap s s1 (hm a b p s s1 hcall)
      exact ih s1 (Nat.lt_of_le_of_lt hle hc)

/-- The struct-field loop cannot exhaust the fuel. -/
theorem checkFields_safe (chk : Chk) (heap : Heap) (bound : Nat) (hm : ChkMono chk)
    (hs : ChkSafe chk heap bound) (fields1 : List Field) (path : String) :
    ∀ fs0 s, uCard heap s < bound →
      checkFields chk fields1 path fs0 s ≠ .error .outOfFuel := by
  intro fs0
  induction fs0 with
  | nil => intro s hc; rw [checkFields]; simp
  | cons f fs ih =>
    intro s hc
    rw [checkFields_cons]
    cases hfb : fieldByName fields1 f.name with
    | none =>
      exact ih (addError s (path ++ "." ++ f.name ++ ": field is missing")) hc
    | some f1 =>
      simp only []
      cases hcall : chk f.type f1.type (path ++ "." ++ f.name) s with
      | error e =>
        intro hcontr
        apply hs _ _ _ s hc
        rw [hcall]
        simp only [] at hcontr
        rw [hcontr]
      | ok s1 =>
        have hle := uCard_le_of_subset heap s s1 (hm _ _ _ s s1 hcall)
        have heq := uCard_congr heap
          (checkTagCompat f.tag f1.tag (path ++ "." ++ f.name) s1) s1
          (checkTagCompat_checked f.tag f1.tag (path ++ "." ++ f.name) s1)
        refine ih _ ?_
        rw [heq]
        exact Nat.lt_of_le_of_lt hle hc

/-- The method loop cannot exhaust the fuel. -/
theorem checkMethods_safe (chk : Chk) (heap : Heap) (bound : Nat) (hm : ChkMono chk)
    (hs : ChkSafe chk heap bound) (ms1 : List (String × Method)) (path : String) :
    ∀ ms0 s, uCard heap s < bound →
      checkMethods chk ms1 path ms0 s ≠ .error .outOfFuel := by
  intro ms0
  induction ms0 with
  | nil => intro s hc; rw [checkMethods]; simp
  | cons nm ms ih =>
    obtain ⟨name, m0⟩ := nm
    intro s hc
    rw [checkMethods_cons]
    cases hlm : lookupMethod ms1 name with
    | none =>
      exact ih (addError s (path ++ ": method " ++ name ++ " is missing")) hc
    | some m1 =>
      simp only []
      have hcS : uCard heap
          (if !m0.ptrReceiver && m1.ptrReceiver then
            addError s (path ++ ": method " ++ name
              ++ " has changed from value to pointer receiver")
          else s) < bound := by
        have hck : (if !m0.ptrReceiver && m1.ptrReceiver then
            addError s (path ++ ": method " ++ name
              ++ " has changed from value to pointer receiver")
          else s).checked = s.checked := by split <;> rfl
        rw [uCard_congr heap _ s hck]
        exact hc
      cases hcall : chk m0.type m1.type (path ++ "." ++ name)
          (if !m0.ptrReceiver && m1.ptrReceiver then
            addError s (path ++ ": method " ++ name
              ++ " has changed from value to pointer receiver")
          else s) with
      | error e =>
        intro hcontr
        apply hs _ _ _ _ hcS
        rw [hcall]
        simp only [] at hcontr
        rw [hcontr]
      | ok s1 =>
        have hle := uCard_le_of_subset heap _ s1 (hm _ _ _ _ s1 hcall)
        exact ih s1 (Nat.lt_of_le_of_lt hle hcS)

/-- The Func case cannot exhaust the fuel. -/
theorem checkFunc_safe (chk : Chk) (heap : Heap) (bound : Nat) (hm : ChkMono chk)
    (hs : ChkSafe chk heap bound) (n0 n1 : TypeNode) (path : String) :
    ∀ s, uCard heap s < bound → checkFunc chk n0 n1 path s ≠ .error .outOfFuel := by
  intro s hc
  unfold checkFunc
  by_cases hin : n0.inp.length ≠ n1.inp.length
  · rw [if_pos hin]
    simp only []
    by_cases hout : n0.out.length ≠ n1.out.length
    · rw [if_pos hout]; simp
    · rw [if_neg hout]
      refine runPairs_safe chk heap bound hm hs _ _ ?_
      rw [uCard_congr heap (addError s (path ++ ": differing parameter count "
        ++ toString n0.inp.length ++ " vs " ++ toString n1.inp.length)) s rfl]
      exact hc
  · rw [if_neg hin]
    cases hr : runPairs chk (paramPairs n0.inp n1.inp path) s with
    | error e =>
      intro hcontr
      apply runPairs_safe chk heap bound hm hs (paramPairs n0.inp n1.inp path) s hc
      rw [hr]
      simp only [] at hcontr
      rw [hcontr]
    | ok s1 =>
      simp only []
      have hle := uCard_le_of_subset heap s s1
        (runPairs_mono chk hm (paramPairs n0.inp n1.inp path) s s1 hr)
      have hc1 : uCard heap s1 < bound := Nat.lt_of_le_of_lt hle hc
      by_cases hout : n0.out.length ≠ n1.out.length
      · rw [if_pos hout]; simp
      · rw [if_neg hout]
        refine runPairs_safe chk heap bound hm hs _ _ ?_
        have hck : (if n0.variadic ≠ n1.variadic then
            addError s1 (path ++ ": variadic status changed") else s1).checked =
            s1.checked := by split <;> rfl
        rw [uCard_congr heap _ s1 hck]
        exact hc1

/-- The kind dispatch cannot exhaust the fuel. -/
theorem kindDispatch_safe (chk : Chk) (heap : Heap) (bound : Nat) (hm : ChkMono chk)
    (hs : ChkSafe chk heap bound) (n0 n1 : TypeNode) (path : String) :
    ∀ s2 k, uCard heap s2 < bound →
      kindDispatch chk n0 n1 path s2 k ≠ .error .outOfFuel := by
  intro s2 k hc
  cases k <;> simp only [kindDispatch] <;>
    first
      | exact runPairs_safe chk heap bound hm hs _ s2 hc
      | exact checkFunc_safe chk heap bound hm hs n0 n1 path s2 hc
      | exact checkFields_safe chk heap bound hm hs n1.fields path n0.fields s2 hc
      | simp

/-- One unfolding of check cannot exhaust the fuel when at most `bound`
nodes are unvisited and the recursive checker is safe below `bound`:
marking the pair strictly shrinks the unvisited set first. -/
theorem checkBody_safe (chk : Chk) (ctxt : Ctxt) (bound : Nat) (hm : ChkMono chk)
    (hs : ChkSafe chk ctxt.heap bound) :
    ∀ t0 t1 path s, uCard ctxt.heap s ≤ bound →
      checkBody chk ctxt t0 t1 path s ≠ .error .outOfFuel := by
  intro t0 t1 path s hcard hcontr
  unfold checkBody at hcontr
  split at hcontr
  · simp at hcontr
  · rename_i hg
    split at hcontr
    · rename_i e heq
      simp only [Except.error.injEq] at hcontr
      subst hcontr
      exact deref_no_fuel ctxt.heap ctxt.info0 t0 heq
    · rename_i d0 heq0
      split at hcontr
      · rename_i e heq
        simp only [Except.error.injEq] at hcontr
        subst hcontr
        exact deref_no_fuel ctxt.heap ctxt.info1 t1 heq
      · rename_i d1 heq1
        split at hcontr
        · simp at hcontr
        · rename_i hig
          obtain ⟨j0, rfl⟩ := deref_ok_some ctxt.heap ctxt.info0 t0 d0 heq0
          obtain ⟨j1, rfl⟩ := deref_ok_some ctxt.heap ctxt.info1 t1 d1 heq1
          simp only [] at hcontr
          rw [if_neg (show ¬((some j0 : Option Nat) = none ∨ (some j1 : Option Nat) = none)
            by simp)] at hcontr
          obtain ⟨i0, rfl, hi0⟩ := deref_ok_arg ctxt.heap ctxt.info0 t0 (some j0) heq0
          obtain ⟨i1, rfl, hi1⟩ := deref_ok_arg ctxt.heap ctxt.info1 t1 (some j1) heq1
          have hltb2 : uCard ctxt.heap
              { s with checked :=
                  insertChecked (some i1) (insertChecked (some i0) s.checked) } < bound := by
            have h1 := uCard_insert2_lt ctxt.heap s i0 i1 hi0 hi1 hg
            omega
          split at hcontr
          · rename_i e heq
            simp only [Except.error.injEq] at hcontr
            subst hcontr
            exact getNodeE_no_fuel ctxt.heap (some j0) heq
          · rename_i n0 heq2
            split at hcontr
            · rename_i e heq
              simp only [Except.error.injEq] at hcontr
              subst hcontr
              exact getNodeE_no_fuel ctxt.heap (some j1) heq
            · rename_i n1 heq3
              split at hcontr
              · simp at hcontr
              · rename_i hk
                split at hcontr
                · rename_i e heq4
                  simp only [Except.error.injEq] at hcontr
                  subst hcontr
                  exact kindDispatch_safe chk ctxt.heap bound hm hs n0 n1 path _
                    n0.kind hltb2 heq4
                · rename_i s3 heq4
                  have hle3 := uCard_le_of_subset ctxt.heap _ s3
                    (kindDispatch_mono chk hm n0 n1 path n0.kind _ s3 heq4)
                  exact checkMethods_safe chk ctxt.heap bound hm hs n1.methods path
                    n0.methods s3 (Nat.lt_of_le_of_lt hle3 hltb2) hcontr

/-- check cannot exhaust its fuel when it exceeds the number of
unvisited nodes. -/
theorem check_safe (ctxt : Ctxt) :
    ∀ fuel t0 t1 path s, uCard ctxt.heap s < fuel →
      check ctxt fuel t0 t1 path s ≠ .error .outOfFuel := by
  intro fuel
  induction fuel with
  | zero => intro t0 t1 path s hc; exact absurd hc (by omega)
  | succ fuel' ih =>
    intro t0 t1 path s hc
    rw [check]
    exact checkBody_safe (fun a b p st => check ctxt fuel' a b p st) ctxt fuel'
      (check_mono ctxt fuel') (fun a b p st hlt => ih a b p st hlt) t0 t1 path s
      (Nat.lt_succ_iff.mp hc)

/-- C4: Check terminates on every pair of finite (possibly cyclic)
graphs: the call-scoped visited set, marked unconditionally for both
members of each compared pair before recursing and causing an immediate
return once both members are visited, strictly shrinks the set of
unvisited nodes at every non-skipped recursive call, so the
`heap.length + 1` units of fuel supplied by Check can never be
exhausted. -/
theorem check_terminates :
    ∀ (heap : Heap) (info0 info1 : Info) (t0 t1 : Option Nat)
      (ign : Info → Option Nat → Bool),
      Check heap info0 info1 t0 t1 ign ≠ .error .outOfFuel := by
  intro heap info0 info1 t0 t1 ign
  rw [Check]
  have hcard : uCard heap ⟨[], []⟩ < heap.length + 1 := by
    have : uCard heap ⟨[], []⟩ ≤ heap.length := by
      rw [uCard, unvisited]
      calc ((Finset.range heap.length).filter (fun i => some i ∉ ([] : List (Option Nat)))).card
          ≤ (Finset.range heap.length).card := Finset.card_filter_le _ _
        _ = heap.length := Finset.card_range _
    omega
  have hsafe := check_safe ⟨heap, info0, info1, ign⟩ (heap.length + 1) t0 t1 "" ⟨[], []⟩ hcard
  cases hres : check ⟨heap, info0, info1, ign⟩ (heap.length + 1) t0 t1 "" ⟨[], []⟩ with
  | error e =>
    rw [hres] at hsafe
    intro hcontr
    simp only [hres, Except.map] at hcontr
    apply hsafe
    simp only [Except.error.injEq] at hcontr
    rw [hcontr]
  | ok s' => simp [hres, Except.map]

/-- A valid sub-type reference: a non-nil pointer into the arena. -/
def validRef (hlen : Nat) : Option Nat → Bool
  | none => false
  | some i => decide (i < hlen)

/-- Node-level well-formedness: a stub's name resolves; a composite kind
carries its required sub-types as valid references; struct field names
and method-map keys have no duplicates (as Go guarantees: struct fields
are unique and Methods is a map); method types are valid references. -/
def nodeWF (hlen : Nat) (types : List (String × Nat)) (n : TypeNode) : Bool :=
  (n.kind != Kind.unknown || (lookupTypeL types n.name).isSome) &&
  (match n.kind with
    | .array | .slice | .chan | .ptr => validRef hlen n.elem
    | .map => validRef hlen n.key && validRef hlen n.elem
    | .func => n.inp.all (validRef hlen) && n.out.all (validRef hlen)
    | .struct => n.fields.all (fun f => validRef hlen f.type) &&
        decide ((n.fields.map Field.name).Nodup)
    | _ => true) &&
  n.methods.all (fun p => validRef hlen p.2.type) &&
  decide ((n.methods.map Prod.fst).Nodup)

/-- Graph well-formedness: the Types map points at valid arena nodes and
every node is well-formed. -/
def wellFormed (heap : Heap) (info : Info) : Bool :=
  info.types.all (fun p => decide (p.2 < heap.length)) &&
  heap.all (nodeWF heap.length info.types)

/-- Characterization of a valid reference. -/
theorem validRef_spec (hlen : Nat) (t : Option Nat) :
    validRef hlen t = true ↔ ∃ i, t = some i ∧ i < hlen := by
  cases t <;> simp [validRef]

/-- A found Types entry is one of the map's pairs. -/
theorem lookupTypeL_mem :
    ∀ (l : List (String × Nat)) (n : String) (v : Nat),
      lookupTypeL l n = some v → ∃ k, (k, v) ∈ l := by
  intro l
  induction l with
  | nil => intro n v h; simp [lookupTypeL] at h
  | cons kv rest ih =>
    intro n v h
    obtain ⟨k, v'⟩ := kv
    rw [lookupTypeL] at h
    by_cases hk : k = n
    · rw [if_pos hk] at h
      simp only [Option.some.injEq] at h
      exact ⟨k, by simp [h]⟩
    · rw [if_neg hk] at h
      obtain ⟨k', hk'⟩ := ih n v h
      exact ⟨k', by simp [hk']⟩

/-- Every node of a well-formed heap is well-formed. -/
theorem wellFormed_node (heap : Heap) (info : Info)
    (hwf : wellFormed heap info = true) :
    ∀ i node, getNode heap i = some node →
      nodeWF heap.length info.types node = true := by
  intro i node hget
  have h2 := hwf
  rw [wellFormed] at h2
  simp only [Bool.and_eq_true] at h2
  exact List.all_eq_true.mp h2.2 node (List.get?_mem hget)

/-- Types-map entries of a well-formed graph are valid arena ids. -/
theorem wellFormed_types (heap : Heap) (info : Info)
    (hwf : wellFormed heap info = true) :
    ∀ n v, lookupTypeL info.types n = some v → v < heap.length := by
  intro n v hl
  obtain ⟨k, hk⟩ := lookupTypeL_mem info.types n v hl
  have h2 := hwf
  rw [wellFormed] at h2
  simp only [Bool.and_eq_true] at h2
  have := List.all_eq_true.mp h2.1 (k, v) hk
  simpa using this

/-- In a well-formed graph, dereferencing a valid id yields a valid id. -/
theorem deref_diag (heap : Heap) (info : Info)
    (hwf : wellFormed heap info = true) (i : Nat) (hi : i < heap.length) :
    ∃ j, deref heap info (some i) = .ok (some j) ∧ j < heap.length := by
  rcases hget : getNode heap i with - | node
  · exact absurd (List.get?_eq_none.mp hget) (by omega)
  · rcases hl : lookupTypeL info.types node.name with - | dt
    · have hnwf := wellFormed_node heap info hwf i node hget
      have hku : node.kind ≠ Kind.unknown := by
        intro hk
        rw [nodeWF] at hnwf
        simp only [Bool.and_eq_true] at hnwf
        have := hnwf.1.1.1
        rw [hk, hl] at this
        simp at this
      exact ⟨i, by simp [deref, hget, hl, hku], hi⟩
    · exact ⟨dt, by simp [deref, hget, hl], wellFormed_types heap info hwf node.name dt hl⟩

/-- In a field list without duplicate names, every field finds itself. -/
theorem fieldByName_self :
    ∀ fs : List Field, (fs.map Field.name).Nodup →
      ∀ f ∈ fs, fieldByName fs f.name = some f := by
  intro fs
  induction fs with
  | nil => intro _ f hf; simp at hf
  | cons g gs ih =>
    intro hnd f hf
    rw [List.map_cons, List.nodup_cons] at hnd
    rcases List.mem_cons.mp hf with rfl | hf'
    · rw [fieldByName, if_pos rfl]
    · rw [fieldByName]
      by_cases hname : g.name = f.name

      · exact absurd (hname ▸ List.mem_map_of_mem Field.name hf') hnd.1
      · rw [if_neg hname]
        exact ih hnd.2 f hf'

/-- In a method map without duplicate keys, every entry finds itself. -/
theorem lookupMethod_self :
    ∀ ms : List (String × Method), (ms.map Prod.fst).Nodup →
      ∀ nm ∈ ms, lookupMethod ms nm.1 = some nm.2 := by
  intro ms
  induction ms with
  | nil => intro _ nm h; simp at h
  | cons g gs ih =>
    intro hnd nm hnm
    rw [List.map_cons, List.nodup_cons] at hnd
    rcases List.mem_cons.mp hnm with rfl | hf'
    · rw [lookupMethod, if_pos rfl]
    · obtain ⟨k, m⟩ := g
      rw [lookupMethod]
      by_cases hname : k = nm.1
      · exact absurd (hname ▸ List.mem_map_of_mem Prod.fst hf') (by simpa using hnd.1)
      · rw [if_neg hname]
        exact ih hnd.2 nm hf'

/-- In a tag map without duplicate keys, every entry finds itself. -/
theorem lookupTag_self :
    ∀ l : List (String × String), (l.map Prod.fst).Nodup →
      ∀ kv ∈ l, lookupTag l kv.1 = some kv.2 := by
  intro l
  induction l with
  | nil => intro _ kv h; simp at h
  | cons g gs ih =>
    intro hnd kv hkv
    rw [List.map_cons, List.nodup_cons] at hnd
    rcases List.mem_cons.mp hkv with rfl | hf'
    · rw [lookupTag, if_pos rfl]
    · obtain ⟨k, v⟩ := g
      rw [lookupTag]
      by_cases hname : k = kv.1
      · exact absurd (hname ▸ List.mem_map_of_mem Prod.fst hf') (by simpa using hnd.1)
      · rw [if_neg hname]
        exact ih hnd.2 kv hf'

/-- Keys after a map assignment: the assigned key plus the old keys. -/
theorem insertTag_key_mem :
    ∀ (l : List (String × String)) (k v : String) (x : String),
      x ∈ (insertTag l k v).map Prod.fst ↔ x = k ∨ x ∈ l.map Prod.fst := by
  intro l k v
  induction l with
  | nil => intro x; simp [insertTag]
  | cons g gs ih =>
    intro x
    obtain ⟨k', v'⟩ := g
    rw [insertTag]
    by_cases hk : k' = k
    · subst hk
      simp only [List.map_cons]
      constructor
      · intro hx
        rcases List.mem_cons.mp hx with rfl | hx
        · exact Or.inl rfl
        · exact Or.inr (List.mem_cons.mpr (Or.inr hx))
      · rintro (rfl | hx)
        · exact List.mem_cons.mpr (Or.inl rfl)
        · rcases List.mem_cons.mp hx with rfl | hx
          · exact List.mem_cons.mpr (Or.inl rfl)
          · exact List.mem_cons.mpr (Or.inr hx)
    · rw [if_neg hk]
      simp only [List.map_cons, List.mem_cons, ih x]
      constructor
      · rintro (rfl | h | h)
        · exact Or.inr (Or.inl rfl)
        · exact Or.inl h
        · exact Or.inr (Or.inr h)
      · rintro (rfl | h)
        · exact Or.inr (Or.inl rfl)
        · rcases h with rfl | h
          · exact Or.inl rfl
          · exact Or.inr (Or.inr h)

/-- Map assignment preserves key uniqueness. -/
theorem insertTag_keys_nodup :
    ∀ (l : List (String × String)) (k v : String),
      (l.map Prod.fst).Nodup → ((insertTag l k v).map Prod.fst).Nodup := by
  intro l
  induction l with
  | nil => intro k v _; simp [insertTag]
  | cons g gs ih =>
    intro k v hnd
    obtain ⟨k', v'⟩ := g
    rw [List.map_cons, List.nodup_cons] at hnd
    rw [insertTag]
    by_cases hk : k' = k
    · subst hk
      rw [if_pos rfl]
      simp only [List.map_cons, List.nodup_cons]
      exact ⟨by simpa using hnd.1, hnd.2⟩
    · rw [if_neg hk]
      simp only [List.map_cons, List.nodup_cons]
      refine ⟨?_, ih k v hnd.2⟩
      rw [insertTag_key_mem]
      rintro (rfl | h)
      · exact hk rfl
      · exact hnd.1 (by simpa using h)

/-- The tag parser produces a map with unique keys. -/
theorem parseTags_keys_nodup :
    ∀ (fuel : Nat) (acc : List (String × String)) (tag : List Char),
      (acc.map Prod.fst).Nodup → ((parseTags fuel acc tag).map Prod.fst).Nodup := by
  intro fuel
  induction fuel with
  | zero => intro acc tag h; rw [parseTags]; exact h
  | succ f ih =>
    intro acc tag h
    rw [parseTags]
    by_cases he : tag.dropWhile (fun c => c = ' ') = []
    · rw [if_pos he]; exact h
    · rw [if_neg he]
      rcases hrest : (tag.dropWhile (fun c => c = ' ')).dropWhile isKeyChar with
        - | ⟨c1, tl1⟩
      · exact h
      rcases tl1 with - | ⟨c2, tl2⟩
      · exact h
      simp only []
      by_cases hcq : c1 = ':' ∧ c2 = '"'
      · rw [if_pos hcq]
        rcases hscan : scanQuoted tl2 with - | ⟨content, remaining⟩
        · exact h
        · exact ih _ remaining (insertTag_keys_nodup acc _ _ h)
      · rw [if_neg hcq]; exact h

/-- allTags produces a map with unique keys. -/
theorem allTags_keys_nodup (tag : String) : ((allTags tag).map Prod.fst).Nodup :=
  parseTags_keys_nodup (tag.length + 1) [] tag.data (by simp)

/-- Comparing a tag map against a map that contains all its entries
(with unique keys) records nothing. -/
theorem checkTagCompatCore_self :
    ∀ (l l' : List (String × String)), (l.map Prod.fst).Nodup →
      (∀ kv ∈ l', kv ∈ l) → ∀ path s, checkTagCompatCore l' l path s = s := by
  intro l l' hnd
  induction l' with
  | nil => intro _ path s; rfl
  | cons kv rest ih =>
    intro hsub path s
    have hlk : lookupTag l kv.1 = some kv.2 :=
      lookupTag_self l hnd kv (hsub kv (by simp))
    have h1 : checkTagCompatCore (kv :: rest) l path s =
        checkTagCompatCore rest l path
          (if (lookupTag l kv.1).getD "" ≠ kv.2 then
            addError s (path ++ ": incompatible tag " ++ kv.1 ++ ":" ++ goQuote kv.2
              ++ " vs " ++ kv.1 ++ ":" ++ goQuote ((lookupTag l kv.1).getD ""))
          else s) := rfl
    rw [h1, hlk]
    simp only [Option.getD_some, ne_eq, not_true_eq_false, if_false]
    exact ih (fun kv' h' => hsub kv' (by simp [h'])) path s

/-- Comparing a tag string against itself records nothing. -/
theorem checkTagCompat_refl (tag path : String) (s : CheckState) :
    checkTagCompat tag tag path s = s :=
  checkTagCompatCore_self (allTags tag) (allTags tag) (allTags_keys_nodup tag)
    (fun _ h => h) path s

/-- A checker that accepts every valid diagonal pair without recording
anything, only growing the visited map. -/
def ChkDiag (chk : Chk) (heap : Heap) (bound : Nat) : Prop :=
  ∀ i p s, i < heap.length → uCard heap s < bound →
    ∃ s', chk (some i) (some i) p s = .ok s' ∧ s'.errors = s.errors ∧
      s.checked ⊆ s'.checked

/-- Diagonal sub-check sequences record nothing. -/
theorem runPairs_diag (chk : Chk) (heap : Heap) (bound : Nat)
    (hd : ChkDiag chk heap bound) :
    ∀ pairs s,
      (∀ pr ∈ pairs, ∃ i, pr.1 = some i ∧ pr.2.1 = some i ∧ i < heap.length) →
      uCard heap s < bound →
      ∃ s', runPairs chk pairs s = .ok s' ∧ s'.errors = s.errors ∧
        s.checked ⊆ s'.checked := by
  intro pairs
  induction pairs with
  | nil => intro s _ _; exact ⟨s, rfl, rfl, fun x hx => hx⟩
  | cons pr rest ih =>
    obtain ⟨a, b, p⟩ := pr
    intro s hdiag hc
    obtain ⟨i, h1, h2, hilen⟩ := hdiag (a, b, p) (by simp)
    simp only [] at h1 h2
    subst h1
    subst h2
    rw [runPairs_cons]
    obtain ⟨s1, hok, herr, hsub⟩ := hd i p s hilen hc
    rw [hok]
    have hc1 : uCard heap s1 < bound :=
      Nat.lt_of_le_of_lt (uCard_le_of_subset heap s s1 hsub) hc
    obtain ⟨s', hok', herr', hsub'⟩ := ih s1 (fun pr h => hdiag pr (by simp [h])) hc1
    exact ⟨s', hok', by rw [herr', herr], hsub.trans hsub'⟩

/-- Diagonal struct-field comparison records nothing. -/
theorem checkFields_diag (chk : Chk) (heap : Heap) (bound : Nat)
    (hd : ChkDiag chk heap bound) (fields1 : List Field) (path : String) :
    ∀ fs0 s,
      (∀ f ∈ fs0, fieldByName fields1 f.name = some f ∧
        ∃ i, f.type = some i ∧ i < heap.length) →
      uCard heap s < bound →
      ∃ s', checkFields chk fields1 path fs0 s = .ok s' ∧ s'.errors = s.errors ∧
        s.checked ⊆ s'.checked := by
  intro fs0
  induction fs0 with
  | nil => intro s _ _; exact ⟨s, rfl, rfl, fun x hx => hx⟩
  | cons f fs ih =>
    intro s hh hc
    obtain ⟨hfb, i, hft, hilen⟩ := hh f (by simp)
    rw [checkFields_cons, hfb]
    simp only []
    rw [hft]
    obtain ⟨s1, hok, herr, hsub⟩ := hd i (path ++ "." ++ f.name) s hilen hc
    rw [hok]
    simp only []
    rw [checkTagCompat_refl]
    have hc1 : uCard heap s1 < bound :=
      Nat.lt_of_le_of_lt (uCard_le_of_subset heap s s1 hsub) hc
    obtain ⟨s', hok', herr', hsub'⟩ := ih s1 (fun g hg => hh g (by simp [hg])) hc1
    exact ⟨s', hok', by rw [herr', herr], hsub.trans hsub'⟩

/-- Diagonal method comparison records nothing (in particular the
receiver test `!m.PtrReceiver && m.PtrReceiver` is always false). -/
theorem checkMethods_diag (chk : Chk) (heap : Heap) (bound : Nat)
    (hd : ChkDiag chk heap bound) (ms1 : List (String × Method)) (path : String) :
    ∀ ms0 s,
      (∀ nm ∈ ms0, lookupMethod ms1 nm.1 = some nm.2 ∧
        ∃ i, nm.2.type = some i ∧ i < heap.length) →
      uCard heap s < bound →
      ∃ s', checkMethods chk ms1 path ms0 s = .ok s' ∧ s'.errors = s.errors ∧
        s.checked ⊆ s'.checked := by
  intro ms0
  induction ms0 with
  | nil => intro s _ _; exact ⟨s, rfl, rfl, fun x hx => hx⟩
  | cons nm ms ih =>
    obtain ⟨name, m0⟩ := nm
    intro s hh hc
    obtain ⟨hlm, i, hmt, hilen⟩ := hh (name, m0) (by simp)
    rw [checkMethods_cons, hlm]
    simp only []
    have hrcv : (!m0.ptrReceiver && m0.ptrReceiver) = false := by
      cases m0.ptrReceiver <;> rfl
    rw [hrcv]
    simp only [Bool.false_eq_true, if_false]
    rw [hmt]
    obtain ⟨s1, hok, herr, hsub⟩ := hd i (path ++ "." ++ name) s hilen hc
    rw [hok]
    have hc1 : uCard heap s1 < bound :=
      Nat.lt_of_le_of_lt (uCard_le_of_subset heap s s1 hsub) hc
    obtain ⟨s', hok', herr', hsub'⟩ := ih s1 (fun g hg => hh g (by simp [hg])) hc1
    exact ⟨s', hok', by rw [herr', herr], hsub.trans hsub'⟩

/-- Members of a diagonal parameter pairing are diagonal pairs. -/
theorem paramPairsFrom_self_mem (path : String) :
    ∀ (xs : List (Option Nat)) (idx : Nat) pr, pr ∈ paramPairsFrom path idx xs xs →
      ∃ x ∈ xs, pr.1 = x ∧ pr.2.1 = x := by
  intro xs
  induction xs with
  | nil => intro idx pr h; simp [paramPairsFrom] at h
  | cons x rest ih =>
    intro idx pr h
    rw [paramPairsFrom] at h
    rcases List.mem_cons.mp h with rfl | h'
    · exact ⟨x, by simp, rfl, rfl⟩
    · obtain ⟨y, hy, h1, h2⟩ := ih (idx + 1) pr h'
      exact ⟨y, by simp [hy], h1, h2⟩

/-- Diagonal Func comparison records nothing. -/
theorem checkFunc_diag (chk : Chk) (heap : Heap) (bound : Nat)
    (hd : ChkDiag chk heap bound) (n : TypeNode) (path : String)
    (hin : ∀ x ∈ n.inp, validRef heap.length x = true)
    (hout : ∀ x ∈ n.out, validRef heap.length x = true) :
    ∀ s, uCard heap s < bound →
      ∃ s', checkFunc chk n n path s = .ok s' ∧ s'.errors = s.errors ∧
        s.checked ⊆ s'.checked := by
  intro s hc
  unfold checkFunc
  rw [if_neg (show ¬(n.inp.length ≠ n.inp.length) by simp)]
  obtain ⟨s1, hok1, herr1, hsub1⟩ := runPairs_diag chk heap bound hd
    (paramPairs n.inp n.inp path) s
    (by
      intro pr hpr
      obtain ⟨x, hx, h1, h2⟩ := paramPairsFrom_self_mem path n.inp 0 pr hpr
      obtain ⟨i, rfl, hilen⟩ := (validRef_spec heap.length x).mp (hin x hx)
      exact ⟨i, h1, h2, hilen⟩)
    hc
  rw [hok1]
  simp only []
  rw [if_neg (show ¬(n.variadic ≠ n.variadic) by simp),
    if_neg (show ¬(n.out.length ≠ n.out.length) by simp)]
  have hc1 : uCard heap s1 < bound :=
    Nat.lt_of_le_of_lt (uCard_le_of_subset heap s s1 hsub1) hc
  obtain ⟨s', hok', herr', hsub'⟩ := runPairs_diag chk heap bound hd
    (paramPairs n.out n.out path) s1
    (by
      intro pr hpr
      obtain ⟨x, hx, h1, h2⟩ := paramPairsFrom_self_mem path n.out 0 pr hpr
      obtain ⟨i, rfl, hilen⟩ := (validRef_spec heap.length x).mp (hout x hx)
      exact ⟨i, h1, h2, hilen⟩)
    hc1
  exact ⟨s', hok', by rw [herr', herr1], hsub1.trans hsub'⟩

/-- Diagonal kind dispatch on a well-formed node records nothing. -/
theorem kindDispatch_diag (chk : Chk) (heap : Heap) (info : Info) (bound : Nat)
    (hd : ChkDiag chk heap bound) (nd : TypeNode) (path : String)
    (hnwf : nodeWF heap.length info.types nd = true) :
    ∀ s2, uCard heap s2 < bound →
      ∃ s3, kindDispatch chk nd nd path s2 nd.kind = .ok s3 ∧ s3.errors = s2.errors ∧
        s2.checked ⊆ s3.checked := by
  intro s2 hc
  rw [nodeWF] at hnwf
  simp only [Bool.and_eq_true] at hnwf
  have hcomp := hnwf.1.1.2
  cases hk : nd.kind
  case array | slice =>
    rw [hk] at hcomp
    simp only [] at hcomp
    obtain ⟨i, hie, hilen⟩ := (validRef_spec heap.length nd.elem).mp hcomp
    simp only [kindDispatch]
    exact runPairs_diag chk heap bound hd _ s2
      (by
        intro pr hpr
        simp only [List.mem_singleton] at hpr
        subst hpr
        exact ⟨i, hie, hie, hilen⟩)
      hc
  case chan =>
    rw [hk] at hcomp
    simp only [] at hcomp
    obtain ⟨i, hie, hilen⟩ := (validRef_spec heap.length nd.elem).mp hcomp
    simp only [kindDispatch]
    exact runPairs_diag chk heap bound hd _ s2
      (by
        intro pr hpr
        simp only [List.mem_singleton] at hpr
        subst hpr
        exact ⟨i, hie, hie, hilen⟩)
      hc
  case ptr =>
    rw [hk] at hcomp
    simp only [] at hcomp
    obtain ⟨i, hie, hilen⟩ := (validRef_spec heap.length nd.elem).mp hcomp
    simp only [kindDispatch]
    exact runPairs_diag chk heap bound hd _ s2
      (by
        intro pr hpr
        simp only [List.mem_singleton] at hpr
        subst hpr
        exact ⟨i, hie, hie, hilen⟩)
      hc
  case map =>
    rw [hk] at hcomp
    simp only [Bool.and_eq_true] at hcomp
    obtain ⟨ik, hik, hiklen⟩ := (validRef_spec heap.length nd.key).mp hcomp.1
    obtain ⟨ie, hie, hielen⟩ := (validRef_spec heap.length nd.elem).mp hcomp.2
    simp only [kindDispatch]
    refine runPairs_diag chk heap bound hd _ s2 ?_ hc
    intro pr hpr
    rcases List.mem_cons.mp hpr with rfl | hpr'
    · exact ⟨ik, hik, hik, hiklen⟩
    · simp only [List.mem_singleton] at hpr'
      subst hpr'
      exact ⟨ie, hie, hie, hielen⟩
  case func =>
    rw [hk] at hcomp
    simp only [Bool.and_eq_true] at hcomp
    simp only [kindDispatch]
    exact checkFunc_diag chk heap bound hd nd path
      (fun x hx => List.all_eq_true.mp hcomp.1 x hx)
      (fun x hx => List.all_eq_true.mp hcomp.2 x hx) s2 hc
  case struct =>
    rw [hk] at hcomp
    simp only [Bool.and_eq_true] at hcomp
    have hnodup : (nd.fields.map Field.name).Nodup := of_decide_eq_true hcomp.2
    simp only [kindDispatch]
    refine checkFields_diag chk heap bound hd nd.fields path nd.fields s2 ?_ hc
    intro f hf
    refine ⟨fieldByName_self nd.fields hnodup f hf, ?_⟩
    exact (validRef_spec heap.length f.type).mp (List.all_eq_true.mp hcomp.1 f hf)
  all_goals
    simp only [kindDispatch]
    exact ⟨s2, rfl, rfl, fun x hx => hx⟩

/-- Diagonal checkBody on a well-formed graph succeeds and records
nothing: the two sides resolve to the same node, whose kinds agree and
whose sub-structures are compared pairwise against themselves. -/
theorem checkBody_diag (heap : Heap) (info : Info)
    (hwf : wellFormed heap info = true) (chk : Chk) (bound : Nat)
    (hd : ChkDiag chk heap bound) :
    ∀ i path s, i < heap.length → uCard heap s ≤ bound →
      ∃ s', checkBody chk ⟨heap, info, info, fun _ _ => false⟩
          (some i) (some i) path s = .ok s'
        ∧ s'.errors = s.errors ∧ s.checked ⊆ s'.checked := by
  intro i path s hi hc
  unfold checkBody
  by_cases hgg : some i ∈ s.checked ∧ some i ∈ s.checked
  · rw [if_pos hgg]
    exact ⟨s, rfl, rfl, fun x hx => hx⟩
  · rw [if_neg hgg]
    simp only []
    obtain ⟨j, hdj, hjlen⟩ := deref_diag heap info hwf i hi
    rw [hdj]
    simp only []
    rw [if_neg (show ¬((false || false) = true) by simp)]
    rw [if_neg (show ¬((some j : Option Nat) = none ∨ (some j : Option Nat) = none)
      by simp)]
    rcases hget : getNode heap j with - | nd
    · exact absurd (List.get?_eq_none.mp hget) (by omega)
    rw [show getNodeE heap (some j) = .ok nd from by simp [getNodeE, hget]]
    simp only []
    rw [if_neg (show ¬(nd.kind ≠ nd.kind) by simp)]
    have hsub1 : s.checked ⊆
        insertChecked (some i) (insertChecked (some i) s.checked) :=
      fun x hx => subset_insertChecked _ _ (subset_insertChecked _ _ hx)
    have hcS1 : uCard heap
        { s with checked := insertChecked (some i) (insertChecked (some i) s.checked) }
        < bound :=
      Nat.lt_of_lt_of_le (uCard_insert2_lt heap s i i hi hi hgg) hc
    have hnwf := wellFormed_node heap info hwf j nd hget
    obtain ⟨s3, hok3, herr3, hsub3⟩ :=
      kindDispatch_diag chk heap info bound hd nd path hnwf
        { s with checked := insertChecked (some i) (insertChecked (some i) s.checked) }
        hcS1
    rw [hok3]
    have hnwf2 := hnwf
    rw [nodeWF] at hnwf2
    simp only [Bool.and_eq_true] at hnwf2
    have hmnodup : (nd.methods.map Prod.fst).Nodup := of_decide_eq_true hnwf2.2
    have hc3 : uCard heap s3 < bound :=
      Nat.lt_of_le_of_lt (uCard_le_of_subset heap _ s3 hsub3) hcS1
    obtain ⟨s', hok', herr', hsub'⟩ :=
      checkMethods_diag chk heap bound hd nd.methods path nd.methods s3
        (by
          intro nm hnm
          refine ⟨lookupMethod_self nd.methods hmnodup nm hnm, ?_⟩
          exact (validRef_spec heap.length nm.2.type).mp
            (List.all_eq_true.mp hnwf2.1.2 nm hnm))
        hc3
    refine ⟨s', hok', ?_, hsub1.trans (hsub3.trans hsub')⟩
    rw [herr', herr3]

/-- check on a diagonal pair of a well-formed graph succeeds and
records nothing, whatever the fuel allows. -/
theorem check_diag (heap : Heap) (info : Info)
    (hwf : wellFormed heap info = true) :
    ∀ fuel, ChkDiag (check ⟨heap, info, info, fun _ _ => false⟩ fuel) heap fuel := by
  intro fuel
  induction fuel with
  | zero => intro i p s hi hc; exact absurd hc (by omega)
  | succ f ih =>
    intro i p s hi hc
    rw [check]
    exact checkBody_diag heap info hwf
      (fun a b p' st => check ⟨heap, info, info, fun _ _ => false⟩ f a b p' st) f
      (fun i' p' s' hi' hc' => ih i' p' s' hi' hc') i p s hi (Nat.lt_succ_iff.mp hc)

/-- C3: on a well-formed graph (stubs resolvable, composite kinds
carrying valid required sub-types, struct field names and method keys
duplicate-free, method and field types valid), every type is compatible
with itself: Check of a type against itself in the same graph, with a
never-matching ignore predicate, reports success with zero violations —
including when the graph is cyclic. -/
theorem check_reflexive :
    ∀ (heap : Heap) (info : Info) (t : Nat),
      wellFormed heap info = true → t < heap.length →
      Check heap info info (some t) (some t) (fun _ _ => false) = .ok [] := by
  intro heap info t hwf ht
  rw [Check]
  obtain ⟨s', hok, herr, -⟩ :=
    check_diag heap info hwf (heap.length + 1) t "" ⟨[], []⟩ ht
      (by
        have hle : uCard heap ⟨[], []⟩ ≤ heap.length := by
          rw [uCard, unvisited]
          calc ((Finset.range heap.length).filter
                (fun i => some i ∉ ([] : List (Option Nat)))).card
              ≤ (Finset.range heap.length).card := Finset.card_filter_le _ _
            _ = heap.length := Finset.card_range _
        omega)
  rw [hok]
  simp only [Except.map, herr]

/-- Witness for check_reflexive: a cyclic graph (a struct whose field
points back at it through a pointer) is compatible with itself. -/
theorem check_reflexive_witness :
    wellFormed
      [⟨"T", .struct, [], [⟨"Next", some 1, false, ""⟩], none, none, [], [], false⟩,
       ⟨"", .ptr, [], [], some 0, none, [], [], false⟩] ⟨[("T", 0)]⟩ = true
    ∧ 0 < ([⟨"T", .struct, [], [⟨"Next", some 1, false, ""⟩], none, none, [], [], false⟩,
       ⟨"", .ptr, [], [], some 0, none, [], [], false⟩] : Heap).length
    ∧ Check
      [⟨"T", .struct, [], [⟨"Next", some 1, false, ""⟩], none, none, [], [], false⟩,
       ⟨"", .ptr, [], [], some 0, none, [], [], false⟩]
      ⟨[("T", 0)]⟩ ⟨[("T", 0)]⟩ (some 0) (some 0) (fun _ _ => false) = .ok [] :=
  ⟨by decide, by decide,
    check_reflexive
      [⟨"T", .struct, [], [⟨"Next", some 1, false, ""⟩], none, none, [], [], false⟩,
       ⟨"", .ptr, [], [], some 0, none, [], [], false⟩]
      ⟨[("T", 0)]⟩ 0 (by decide) (by decide)⟩

end Apicompat
